import Mathlib

/-!
Verification development for the altitude-based orchestration runner of the
garage-mcp service (files services/mcp/modules/orchestra_runner.py,
orchestra.py and error_sink.py).

The Python code is shallowly embedded as executable Lean definitions:

* dictionaries with a fixed key set become structures whose optional keys are
  Option fields; a read d.get(k, default) becomes Option.getD;
* free-form payload dictionaries become association lists over a small JSON
  value type, with Python dict.update semantics made explicit;
* wall-clock timestamps become an abstract tick counter threaded through the
  run state: every call of datetime.now consumes one tick, and the simulated
  asyncio.sleep latency of a delegate advances the counter by the sleeps
  duration in tenths of a second (duration_ms fields therefore hold tick
  differences, an order-faithful stand-in for milliseconds);
* uuid.uuid4 error identifiers become a counter in the run state, rendered
  into messages with Nat.repr;
* raised Python exceptions become an Except value threaded with the state, so
  a propagating exception still carries every state mutation made before it,
  exactly as the mutations of the shared HDO dictionary survive a raise;
* the recursive retry of _execute_step is given a structural fuel argument;
  the fuel-exhaustion branch returns the failure unchanged and is proved
  unreachable for the fuel the runner supplies (execStep_fuel_irrelevant);
* the run state additionally records, purely observationally, the list of
  HDO snapshots after every mutating method (trace), every error record
  built anywhere (records) and the error records built by the runner-level
  handler (runnerRecords); no embedded operation reads these fields.
-/

namespace Orchestra

/-! ## Small string machinery (Python substring and lower-case tests) -/

/-- Boolean substring containment on character lists: pat occurs contiguously
in hay.  This models the Python expression pat in hay on strings. -/
def containsSub (hay pat : List Char) : Bool :=
  (List.range (hay.length + 1)).any fun i => pat.isPrefixOf (hay.drop i)

/-- String-level wrapper for containsSub, modelling Python pat in hay. -/
def strContains (hay pat : String) : Bool :=
  containsSub hay.data pat.data

/-- Lower-casing of a string, modelling Python str.lower on the ASCII
fragment the repository uses. -/
def lowerStr (s : String) : String :=
  String.mk (s.data.map Char.toLower)

theorem containsSub_of_isPrefixOf_drop {hay pat : List Char} {i : Nat}
    (hi : i ≤ hay.length) (h : pat.isPrefixOf (hay.drop i) = true) :
    containsSub hay pat = true := by
  unfold containsSub
  rw [List.any_eq_true]
  exact ⟨i, List.mem_range.mpr (Nat.lt_succ_of_le hi), h⟩

theorem isPrefixOf_append_self (a b : List Char) :
    a.isPrefixOf (a ++ b) = true := by
  induction a with
  | nil => simp [List.isPrefixOf]
  | cons c t ih => simp [List.isPrefixOf, ih]

/-- Containment of the middle block of a three-part concatenation. -/
theorem containsSub_append_middle (a b c : List Char) :
    containsSub (a ++ b ++ c) b = true := by
  apply containsSub_of_isPrefixOf_drop (i := a.length)
  · simp [Nat.le_add_right]
  · have : (a ++ b ++ c).drop a.length = b ++ c := by
      simp [List.append_assoc, List.drop_append_of_le_length]
    rw [this]
    exact isPrefixOf_append_self b c

theorem length_le_of_isPrefixOf {a b : List Char}
    (h : a.isPrefixOf b = true) : a.length ≤ b.length := by
  induction a generalizing b with
  | nil => simp
  | cons c t ih =>
    cases b with
    | nil => simp [List.isPrefixOf] at h
    | cons d u =>
      simp only [List.isPrefixOf, Bool.and_eq_true] at h
      simpa [Nat.succ_le_succ_iff] using ih h.2

/-- Containment bounds length: a string can only contain patterns that are at
most as long as itself. -/
theorem length_le_of_containsSub {hay pat : List Char}
    (h : containsSub hay pat = true) : pat.length ≤ hay.length := by
  unfold containsSub at h
  rw [List.any_eq_true] at h
  obtain ⟨i, _, hp⟩ := h
  calc pat.length ≤ (hay.drop i).length := length_le_of_isPrefixOf hp
    _ ≤ hay.length := by simp [List.length_drop]

/-! ## JSON-like values and Python dictionary semantics

Free-form payload dictionaries (HDO payload, delegate parameters, payload
fragments of hdo_updates) are association lists over a small JSON value
type.  Python dict.update keeps insertion order, overwriting values of
existing keys in place and appending new keys at the end. -/

/-- Minimal JSON-like value for payloads and parameters. -/
inductive JVal where
  | s : String → JVal
  | n : Int → JVal
  | b : Bool → JVal
  | null : JVal
  | obj : List (String × JVal) → JVal
  | arr : List JVal → JVal

/-- Write one key of an association list with Python dict assignment
semantics: overwrite in place if present, else append. -/
def assocSet (d : List (String × JVal)) (k : String) (v : JVal) :
    List (String × JVal) :=
  if d.any (fun p => p.1 == k) then
    d.map (fun p => if p.1 == k then (k, v) else p)
  else d ++ [(k, v)]

/-- Python dict.update: fold assocSet over the update list. -/
def dictUpdate (d upd : List (String × JVal)) : List (String × JVal) :=
  upd.foldl (fun acc p => assocSet acc p.1 p.2) d

/-- Lookup in an association list, modelling Python dict.get. -/
def assocGet (d : List (String × JVal)) (k : String) : Option JVal :=
  (d.find? (fun p => p.1 == k)).map (fun p => p.2)

/-- Rendering of a JSON-like value into a string, standing in for the Python
f-string interpolation of a parameter value.  Only string parameters occur in
the repository; other shapes get a fixed rendering. -/
def jRender : JVal → String
  | .s s => s
  | .n i => toString i
  | .b true => "True"
  | .b false => "False"
  | .null => "None"
  | .obj _ => "object"
  | .arr _ => "list"

/-- Read a parameter as a string with a default, modelling
parameters.get(key, default) followed by string interpolation. -/
def getStrParam (params : List (String × JVal)) (k : String) (dflt : String) :
    String :=
  match assocGet params k with
  | some v => jRender v
  | none => dflt

/-! ## Data model (orchestra_runner.py, hdo/plan shapes)

Dictionaries with a fixed key set are structures; a key the code may find
absent is an Option field with none for absence.  The log, meta and payload
keys of the HDO are modelled as always present (the Python code creates them
on demand; absence is observationally the empty value in this functional
embedding — the aliasing consequences of dict.copy are modelled separately
for the frame claim). -/

/-- Status values appearing in LogEntry entries. -/
inductive Status where
  | started | completed | failed | skipped
  deriving DecidableEq, Repr

/-- Details mapping of a LogEntry.  Every key any code path may write or read
is an Option field; .get on a missing key is none.  promotion_decision is
read by _check_promotion_decision but written by no runner code path. -/
structure Details where
  step_id : Option String := none
  altitude : Option Int := none
  parameters : Option (List (String × JVal)) := none
  result_summary : Option String := none
  error_message : Option String := none
  error_type : Option String := none
  skip_reason : Option String := none
  plan_id : Option String := none
  plan_version : Option String := none
  total_steps : Option Nat := none
  total_steps_executed : Option Nat := none
  promotion_decision : Option Bool := none

/-- Log entry (append-only elements of the HDO log). -/
structure LogEntry where
  timestamp : Nat
  agent_id : String
  action : String
  status : Status
  duration_ms : Option Nat := none
  error_id : Option Nat := none
  details : Details

/-- Error context block stored under meta.error_context by
_record_hdo_error. -/
structure ErrorContext where
  last_error_id : Option Nat := none
  error_count : Nat := 0
  retry_count : Nat := 0
  max_retries : Nat := 3
  deriving DecidableEq, Repr

/-- Meta mapping of the HDO.  Structured fields the code addresses by name,
plus an extra association list receiving any meta fragment of hdo_updates
(no delegate in this repository emits one). -/
structure HdoMeta where
  plan_id : Option String := none
  plan_version : Option String := none
  idempotency_key : Option String := none
  altitude_trace : Option (List (String × JVal)) := none
  error_context : Option ErrorContext := none
  extra : List (String × JVal) := []

/-- Hierarchical Data Object: the mutable execution-state document. -/
structure HDO where
  process_id : String
  blueprint_id : Option String := none
  stage : String := "unknown"
  validated : Bool := false
  promoted_to : Option String := none
  payload : List (String × JVal) := []
  meta : HdoMeta := {}
  log : List LogEntry := []
  timestamp_last_touched : Nat := 0

/-- Retry policy of a step; the defaults are the .get defaults of
_should_retry_step and of the backoff read in _execute_step. -/
structure RetryPolicy where
  max_retries : Nat := 0
  retry_on : List String := []
  backoff_seconds : Nat := 5
  deriving DecidableEq, Repr

/-- Execution condition of a step; defaults are the .get defaults of
_should_execute_step. -/
structure WhenCfg where
  condition : String := "always"
  depends_on : List String := []
  expression : String := "true"
  deriving DecidableEq, Repr

/-- Plan step. -/
structure Step where
  step_id : String
  agent_id : String
  action : String
  parameters : List (String × JVal) := []
  altitude : Int
  timeout_seconds : Nat := 120
  when : WhenCfg := {}
  retry_policy : RetryPolicy := {}

/-- Orchestration plan. -/
structure Plan where
  plan_id : String
  version : String
  steps : List Step

/-- Raised Python exception: class name and message. -/
structure PyErr where
  ty : String
  msg : String
  deriving DecidableEq, Repr

/-! ## ID validators (orchestra.py, _validate_heir_ids) -/

/-- Character class [a-z0-9_] of the process_id slug (ASCII, matching the
Python regex on the identifiers the repository uses). -/
def isSlugChar (c : Char) : Bool :=
  (('a' ≤ c) && (c ≤ 'z')) || (('0' ≤ c) && (c ≤ '9')) || (c == '_')

/-- ASCII digit class for the regex \d on the identifiers used here. -/
def isDigitChar (c : Char) : Bool :=
  ('0' ≤ c) && (c ≤ '9')

/-- Shared tail of both identifier patterns: slug, 8 digits, 6 digits, 3 to
6 digits.  The slug class excludes the dash, so the regex

  PROC-[a-z0-9_]+-[0-9]{8}-[0-9]{6}-[0-9]{3,6}

matches exactly the strings whose dash-separated components have this
shape. -/
def procComponentsOk : List (List Char) → Bool
  | [slug, d8, d6, dseq] =>
    (!slug.isEmpty) && slug.all isSlugChar &&
    (d8.length == 8) && d8.all isDigitChar &&
    (d6.length == 6) && d6.all isDigitChar &&
    decide (3 ≤ dseq.length) && decide (dseq.length ≤ 6) && dseq.all isDigitChar
  | _ => false

/-- Anchored core of the process_id regex. -/
def procPatCore (cs : List Char) : Bool :=
  match cs.splitOn '-' with
  | p :: rest => (p == "PROC".data) && procComponentsOk rest
  | [] => false

/-- Anchored core of the idempotency_key regex (IDEM- then the process_id
pattern). -/
def idemPatCore (cs : List Char) : Bool :=
  match cs.splitOn '-' with
  | i :: p :: rest => (i == "IDEM".data) && (p == "PROC".data) && procComponentsOk rest
  | _ => false

/-- Python re.match with a pattern anchored by a trailing dollar also accepts
one trailing newline; this wrapper reproduces that. -/
def reMatchDollar (core : List Char → Bool) (s : String) : Bool :=
  core s.data ||
    (match s.data.getLast? with
     | some c => (c == '\n') && core s.data.dropLast
     | none => false)

/-- Full process_id pattern test of _validate_heir_ids. -/
def procPat (s : String) : Bool := reMatchDollar procPatCore s

/-- Full idempotency_key pattern test of _validate_heir_ids. -/
def idemPat (s : String) : Bool := reMatchDollar idemPatCore s

/-- Embedding of _validate_heir_ids.  The idempotency key is only checked
when truthy (a present empty string is skipped, as in Python).  Raises are
ValueError values, as in the source. -/
def validateHeirIds (pid : String) (meta : HdoMeta) : Except PyErr Unit :=
  if !(procPat pid) then
    .error ⟨"ValueError", "Invalid process_id format: " ++ pid⟩
  else
    match meta.idempotency_key with
    | some k =>
      if k = "" then .ok ()
      else if !(idemPat k) then
        .error ⟨"ValueError", "Invalid idempotency_key format: " ++ k⟩
      else if k ≠ "IDEM-" ++ pid then
        .error ⟨"ValueError",
          "idempotency_key " ++ k ++ " does not match process_id " ++ pid⟩
      else .ok ()
    | none => .ok ()

/-! ## Error severity and error records (error_sink.py) -/

/-- Keyword list of the critical branch of _determine_error_severity. -/
def critKeywords : List String :=
  ["database connection", "authentication failed", "permission denied",
   "out of memory", "disk full"]

/-- Keyword list of the high branch of _determine_error_severity. -/
def highKeywords : List String :=
  ["timeout", "network error", "service unavailable",
   "invalid data", "validation failed"]

/-- Embedding of _determine_error_severity: first match wins over the
lower-cased message, then over the exception type name, defaulting to
high. -/
def determineErrorSeverity (errType msg : String) : String :=
  let m := lowerStr msg
  if critKeywords.any (fun k => strContains m k) then "critical"
  else if highKeywords.any (fun k => strContains m k) then "high"
  else if ["ValueError", "KeyError", "AttributeError"].contains errType then "medium"
  else if ["Warning", "UserWarning"].contains errType then "low"
  else "high"

/-- Embedding of _map_altitude_to_stage. -/
def mapAltitudeToStage : Option Int → String
  | none => "unknown"
  | some a =>
    if a = 30000 then "overall"
    else if a = 20000 then "input"
    else if a = 10000 then "middle"
    else if a = 5000 then "output"
    else "altitude_" ++ toString a

/-- Current-step block that orchestra_invoke places into the context passed
to build_error_record (the source builds it without a timeout key). -/
structure StepCtx where
  step_id : Option String
  agent_id : String
  action : String
  altitude : Option Int
  deriving DecidableEq, Repr

/-- Execution context passed to build_error_record.  The runner-level call
passes the plain MCP context (no current_step key); the invoke-level call
adds the current_step block.  Keys of the context that no reader consumes
(execution_id, started_at, timeout_seconds) are not modelled. -/
structure Ctx where
  current_step : Option StepCtx := none
  deriving DecidableEq, Repr

/-- Size measure standing in for len(str(payload)) in the HDO snapshot; no
claim reads it, only its existence matters. -/
def payloadSizeModel (p : List (String × JVal)) : Nat := p.length

/-- Sanitized HDO snapshot of _create_hdo_snapshot: allow-listed top-level
fields, allow-listed meta fields, the last 10 log entries, and a payload
summary of key names plus a size. -/
structure Snapshot where
  process_id : String
  blueprint_id : Option String
  stage : String
  validated : Bool
  promoted_to : Option String
  timestamp_last_touched : Nat
  meta_plan_id : Option String
  meta_plan_version : Option String
  meta_idempotency_key : Option String
  meta_error_context : Option ErrorContext
  log : List LogEntry
  payload_keys : List String
  payload_size : Nat

/-- Embedding of _create_hdo_snapshot. -/
def createHdoSnapshot (h : HDO) : Snapshot :=
  { process_id := h.process_id
    blueprint_id := h.blueprint_id
    stage := h.stage
    validated := h.validated
    promoted_to := h.promoted_to
    timestamp_last_touched := h.timestamp_last_touched
    meta_plan_id := h.meta.plan_id
    meta_plan_version := h.meta.plan_version
    meta_idempotency_key := h.meta.idempotency_key
    meta_error_context := h.meta.error_context
    log := h.log.drop (h.log.length - 10)
    payload_keys := h.payload.map (fun p => p.1)
    payload_size := payloadSizeModel h.payload }

/-- Structured error record of build_error_record.  The stacktrace and the
constant metadata block are diagnostic text no claim examines and are not
modelled. -/
structure ErrorRecord where
  error_id : Nat
  occurred_at : Nat
  process_id : String
  blueprint_id : String
  plan_id : String
  plan_version : String
  agent_id : String
  stage : String
  severity : String
  message : String
  error_type : String
  hdo_snapshot : Snapshot
  context : Ctx

/-- Embedding of build_error_record as a pure function of the fresh
error identifier and the current tick (uuid.uuid4 and datetime.now are drawn
from the run state by the caller). -/
def buildErrorRecord (h : HDO) (ctx : Ctx) (e : PyErr)
    (errorId occurredAt : Nat) : ErrorRecord :=
  let baseAgent := "unknown"
  let baseStage := h.stage
  let agentId := match ctx.current_step with
    | some sc => sc.agent_id
    | none => baseAgent
  let stage := match ctx.current_step with
    | some sc => mapAltitudeToStage sc.altitude
    | none => baseStage
  { error_id := errorId
    occurred_at := occurredAt
    process_id := h.process_id
    blueprint_id := h.blueprint_id.getD "unknown"
    plan_id := (h.meta.plan_id).getD "unknown"
    plan_version := (h.meta.plan_version).getD "unknown"
    agent_id := agentId
    stage := stage
    severity := determineErrorSeverity e.ty e.msg
    message := e.msg
    error_type := e.ty
    hdo_snapshot := createHdoSnapshot h
    context := ctx }

/-! ## Run state

The state threaded through one run_altitude_plan invocation: the private
HDO copy, the tick counter standing in for wall-clock time, the error-id
counter standing in for uuid.uuid4, and three purely observational fields:
the trace of HDO snapshots after every mutating method, the list of every
error record built anywhere, and the sublist built by the runner-level
failure handler.  No embedded operation reads the observational fields. -/

structure RunSt where
  hdo : HDO
  clock : Nat := 0
  nextErrorId : Nat := 0
  records : List ErrorRecord := []
  runnerRecords : List ErrorRecord := []
  trace : List HDO := []

/-- Replace the working HDO, snapshotting the new value into the trace. -/
def setHdo (st : RunSt) (h : HDO) : RunSt :=
  { st with hdo := h, trace := st.trace ++ [h] }

/-- Draw one timestamp tick (one datetime.now call). -/
def tickNow (st : RunSt) : Nat × RunSt :=
  (st.clock, { st with clock := st.clock + 1 })

/-- Advance the clock by a simulated asyncio.sleep of the given tenths of a
second. -/
def sleepTicks (st : RunSt) (tenths : Nat) : RunSt :=
  { st with clock := st.clock + tenths }

/-- Build an error record, drawing the identifier and timestamp from the
state and recording the call observationally. -/
def buildRecord (h : HDO) (ctx : Ctx) (e : PyErr) (st : RunSt) :
    ErrorRecord × RunSt :=
  let r := buildErrorRecord h ctx e st.nextErrorId st.clock
  (r, { st with nextErrorId := st.nextErrorId + 1, clock := st.clock + 1,
                records := st.records ++ [r] })

/-! ## Agent delegate simulation (orchestra.py, _delegate_to_agent)

The source selects the behavior with an elif chain of case-sensitive Python
substring tests on agent_id; delegateCategory reifies that chain in order.
Each simulated behavior is embedded with its result fields that the runner
observes: status, hdo_updates, and a summary string standing in for
str(result)[:200] (the runner treats it as opaque text, and every simulated
result dictionary is non-empty hence truthy).  The asyncio.sleep latency of
each behavior advances the clock by its duration in tenths of a second. -/

/-- Delegate categories of the elif chain (the order below is the source
order of the chain). -/
inductive Category where
  | orchestrator | mapper | validator | db | enforcer | notifier | reporter
  | generic
  deriving DecidableEq, Repr

/-- Embedding of the dispatch chain of _delegate_to_agent: first
case-sensitive substring match on agent_id, falling back to generic. -/
def delegateCategory (agentId : String) : Category :=
  if strContains agentId "orchestrator" then .orchestrator
  else if strContains agentId "mapper" then .mapper
  else if strContains agentId "validator" then .validator
  else if strContains agentId "db" then .db
  else if strContains agentId "enforcer" then .enforcer
  else if strContains agentId "notifier" then .notifier
  else if strContains agentId "reporter" then .reporter
  else .generic

/-- Simulated asyncio.sleep latency of each behavior, in tenths of a
second (0.1, 0.5, 0.3, 0.8, 0.4, 0.2, 0.3, 0.2 seconds in the source). -/
def delegateSleepTenths : Category → Nat
  | .orchestrator => 1
  | .mapper => 5
  | .validator => 3
  | .db => 8
  | .enforcer => 4
  | .notifier => 2
  | .reporter => 3
  | .generic => 2

/-- State-update instructions inside a delegate result (hdo_updates). -/
structure HdoUpdates where
  payload : Option (List (String × JVal)) := none
  meta : Option (List (String × JVal)) := none
  stage : Option String := none
  validated : Option Bool := none
  promoted_to : Option (Option String) := none

/-- Delegate result envelope as the runner observes it. -/
structure DelegateResult where
  status : String
  hdo_updates : Option HdoUpdates := none
  summary : String

/-- Embedding of _get_target_stage. -/
def getTargetStage (agentId : String) : String :=
  if strContains agentId "input" then "input"
  else if strContains agentId "middle" then "middle"
  else if strContains agentId "output" then "output"
  else "input"

/-- Embedding of _simulate_orchestrator. -/
def simulateOrchestrator (agentId action : String)
    (params : List (String × JVal)) : DelegateResult :=
  { status := "delegated"
    hdo_updates := some
      { stage := some (getTargetStage agentId)
        validated := some false }
    summary := "Orchestrator " ++ agentId ++ " coordinated " ++ action ++
      " delegating " ++ getStrParam params "subflow" "default_subflow" }

/-- Embedding of _simulate_mapper. -/
def simulateMapper (agentId action : String)
    (params : List (String × JVal)) : DelegateResult :=
  let schema := getStrParam params "mapping_schema" "default"
  { status := "completed"
    hdo_updates := some
      { payload := some
          [("mapped_data", .s ("normalized_data_from_" ++ schema)),
           ("mapping_metadata", .obj
             [("schema_version", .s "1.0.0"),
              ("records_processed", .n 42)])] }
    summary := "Mapped client data using schema " ++ schema }

/-- Embedding of _simulate_validator. -/
def simulateValidator (agentId action : String)
    (params : List (String × JVal)) : DelegateResult :=
  let schema := getStrParam params "validation_schema" "default"
  { status := "completed"
    hdo_updates := some
      { validated := some true
        payload := some
          [("validation_results", .obj
             [("schema", .s schema),
              ("passed", .b true),
              ("heir_compliant", assocGet params "heir_compliance" |>.getD (.b true))])] }
    summary := "Validated data against schema " ++ schema }

/-- Embedding of _simulate_db_agent.  A mode other than plan or apply leaves
the result variable unassigned in the source, so the return statement raises
UnboundLocalError (after the sleep, which precedes the return). -/
def simulateDbAgent (agentId action : String)
    (params : List (String × JVal)) (nowTick : Nat) :
    Except PyErr DelegateResult :=
  let mode := getStrParam params "mode" "plan"
  if mode = "plan" then
    .ok { status := "completed"
          hdo_updates := some
            { payload := some
                [("db_plan", .obj
                   [("mode", .s "plan"),
                    ("rollback_sql", .s "DELETE FROM clients WHERE id = ?")])] }
          summary := "Created database execution plan" }
  else if mode = "apply" then
    .ok { status := "completed"
          hdo_updates := some
            { payload := some
                [("db_result", .obj
                   [("mode", .s "apply"),
                    ("transaction_id", .s "txn_12345"),
                    ("committed_at", .s ("tick-" ++ toString nowTick))])] }
          summary := "Applied planned database changes" }
  else
    .error ⟨"UnboundLocalError",
      "cannot access local variable result where it is not associated with a value"⟩

/-- Embedding of _simulate_enforcer (the promotion decision is the hardcoded
True of the source, so promoted_to becomes output). -/
def simulateEnforcer (agentId action : String)
    (params : List (String × JVal)) : DelegateResult :=
  let engine := getStrParam params "rules_engine" "default"
  { status := "completed"
    hdo_updates := some
      { promoted_to := some (some "output")
        payload := some
          [("enforcement_result", .obj
             [("rules_engine", .s engine),
              ("promotion_approved", .b true)])] }
    summary := "Applied business rules using " ++ engine }

/-- Embedding of _simulate_notifier. -/
def simulateNotifier (agentId action : String)
    (params : List (String × JVal)) (nowTick : Nat) : DelegateResult :=
  let ntype := getStrParam params "notification_type" "generic"
  { status := "completed"
    hdo_updates := some
      { payload := some
          [("notifications", .obj
             [("type", .s ntype),
              ("channels", assocGet params "channels" |>.getD (.arr [.s "email"])),
              ("sent_at", .s ("tick-" ++ toString nowTick))])] }
    summary := "Sent " ++ ntype ++ " notifications" }

/-- Embedding of _simulate_reporter. -/
def simulateReporter (agentId action : String)
    (params : List (String × JVal)) (nowTick : Nat) : DelegateResult :=
  let template := getStrParam params "report_template" "default"
  let artifact := getStrParam params "artifact_path" "reports/"
  { status := "completed"
    hdo_updates := some
      { payload := some
          [("report", .obj
             [("template", .s template),
              ("path", .s (artifact ++ "report_tick-" ++ toString nowTick ++ ".json"))])] }
    summary := "Generated report using " ++ template }

/-- Embedding of _simulate_generic_agent. -/
def simulateGenericAgent (agentId action : String)
    (params : List (String × JVal)) (nowTick : Nat) : DelegateResult :=
  { status := "completed"
    hdo_updates := some
      { payload := some
          [("generic_result", .obj
             [("agent_id", .s agentId),
              ("action", .s action),
              ("completed_at", .s ("tick-" ++ toString nowTick))])] }
    summary := "Agent " ++ agentId ++ " performed " ++ action }

/-- Embedding of _delegate_to_agent: dispatch on the substring chain, run
the selected simulation, advance the clock by its sleep.  The
timeout_seconds parameter is accepted and, as in the source, never used. -/
def delegateToAgent (agentId action : String)
    (params : List (String × JVal)) (timeoutSeconds : Nat) (st : RunSt) :
    Except PyErr DelegateResult × RunSt :=
  let cat := delegateCategory agentId
  let st1 := sleepTicks st (delegateSleepTenths cat)
  match cat with
  | .orchestrator => (.ok (simulateOrchestrator agentId action params), st1)
  | .mapper => (.ok (simulateMapper agentId action params), st1)
  | .validator => (.ok (simulateValidator agentId action params), st1)
  | .db => (simulateDbAgent agentId action params st.clock, st1)
  | .enforcer => (.ok (simulateEnforcer agentId action params), st1)
  | .notifier => (.ok (simulateNotifier agentId action params st.clock), st1)
  | .reporter => (.ok (simulateReporter agentId action params st.clock), st1)
  | .generic => (.ok (simulateGenericAgent agentId action params st.clock), st1)

/-! ## orchestra_invoke (orchestra.py)

Required-field checks use Python truthiness (empty strings fail them).
_validate_heir_ids runs before the try block, so a validation failure
propagates as the raw ValueError with no error record; a delegate failure
inside the try block builds an error record and is re-raised as a concise
RuntimeError naming the agent and the fresh error id.  The sidecar events
and the database insertion are fire-and-forget logging with no effect on
the embedded state. -/

def orchestraInvoke (agentId action : String)
    (params : List (String × JVal)) (stepId : Option String)
    (altitude : Option Int) (timeoutSeconds : Nat) (st : RunSt) :
    Except PyErr DelegateResult × RunSt :=
  if agentId = "" then
    (.error ⟨"ValueError", "agent_id is required"⟩, st)
  else if action = "" then
    (.error ⟨"ValueError", "action is required"⟩, st)
  else if st.hdo.process_id = "" then
    (.error ⟨"ValueError", "process_id is required in context"⟩, st)
  else
    match validateHeirIds st.hdo.process_id st.hdo.meta with
    | .error e => (.error e, st)
    | .ok _ =>
      match delegateToAgent agentId action params timeoutSeconds st with
      | (.ok result, st1) => (.ok result, st1)
      | (.error e, st1) =>
        let ctx : Ctx :=
          { current_step := some
              { step_id := stepId, agent_id := agentId,
                action := action, altitude := altitude } }
        let (r, st2) := buildRecord st1.hdo ctx e st1
        (.error ⟨"RuntimeError",
          "Agent " ++ agentId ++ " failed; error_id=" ++ toString r.error_id⟩,
         st2)

/-! ## Orchestration runner primitives (orchestra_runner.py)

Each private method of OrchestrationRunner becomes one function on the run
state; a method that mutates the HDO performs one setHdo, so the trace holds
the reachable HDO values between method calls. -/

/-- Truthiness filter of the source on details step_id (a missing key or an
empty string is falsy). -/
def detailStepIdTruthy (e : LogEntry) : Bool :=
  match e.details.step_id with
  | some s => s ≠ ""
  | none => false

/-- Last terminal (completed or failed) status per step id, as built by the
dictionary comprehensions of _all_dependencies_successful and
_any_dependencies_failed (later entries overwrite earlier ones). -/
def terminalStatusOf (log : List LogEntry) (sid : String) : Option Status :=
  log.foldl
    (fun acc e =>
      if detailStepIdTruthy e && (e.details.step_id == some sid) &&
         (e.status == Status.completed || e.status == Status.failed) then
        some e.status
      else acc)
    none

/-- Embedding of _all_dependencies_successful. -/
def allDependenciesSuccessful (log : List LogEntry) (sids : List String) : Bool :=
  sids.all (fun sid => terminalStatusOf log sid == some Status.completed)

/-- Embedding of _any_dependencies_failed. -/
def anyDependenciesFailed (log : List LogEntry) (sids : List String) : Bool :=
  sids.any (fun sid => terminalStatusOf log sid == some Status.failed)

/-- Embedding of _check_promotion_decision: last completed entry of the
enforcer agent whose details carry a non-null promotion_decision. -/
def checkPromotionDecision (log : List LogEntry) : Bool :=
  match log.reverse.find?
      (fun e => (e.agent_id == "middle-subagent-enforcer") &&
                (e.status == Status.completed) &&
                e.details.promotion_decision.isSome) with
  | some e => e.details.promotion_decision.getD false
  | none => false

/-- Fixed expression string recognised by _evaluate_condition_expression. -/
def promotionExprFragment : String := "enforcer.promotion_decision == true"

/-- Embedding of _evaluate_condition_expression (unknown expressions default
to true with a warning in the source). -/
def evaluateConditionExpression (expr : String) (log : List LogEntry) : Bool :=
  if expr = "true" then true
  else if expr = "false" then false
  else if strContains expr promotionExprFragment then checkPromotionDecision log
  else true

/-- Embedding of _should_execute_step. -/
def shouldExecuteStep (step : Step) (h : HDO) : Bool :=
  let w := step.when
  if w.condition = "always" then true
  else if w.condition = "on_success" then allDependenciesSuccessful h.log w.depends_on
  else if w.condition = "on_failure" then anyDependenciesFailed h.log w.depends_on
  else if w.condition = "conditional" then evaluateConditionExpression w.expression h.log
  else false

/-- Embedding of _get_step_retry_count: count of failed entries for the
step id over the whole log. -/
def getStepRetryCount (sid : String) (log : List LogEntry) : Nat :=
  (log.filter (fun e =>
    (e.details.step_id == some sid) && (e.status == Status.failed))).length

/-- Embedding of _should_retry_step.  Note that the count it consults
already includes the failed entry of the current attempt, which
_record_step_failure appends before this check runs. -/
def shouldRetryStep (step : Step) (e : PyErr) (h : HDO) : Bool :=
  let rp := step.retry_policy
  if rp.max_retries = 0 then false
  else
    let c := getStepRetryCount step.step_id h.log
    if rp.max_retries ≤ c then false
    else if strContains (lowerStr e.msg) "timeout" && rp.retry_on.contains "timeout" then true
    else if rp.retry_on.contains "agent_failure" then true
    else false

/-- Embedding of _record_step_start. -/
def recordStepStart (step : Step) (t : Nat) (st : RunSt) : RunSt :=
  setHdo st
    { st.hdo with
      log := st.hdo.log ++
        [{ timestamp := t, agent_id := step.agent_id, action := step.action,
           status := .started,
           details := { step_id := some step.step_id,
                        altitude := some step.altitude,
                        parameters := some step.parameters } }]
      timestamp_last_touched := t }

/-- Embedding of _record_step_completion (every simulated result dictionary
is non-empty, hence truthy, so result_summary is always present). -/
def recordStepCompletion (step : Step) (endT dur : Nat)
    (result : DelegateResult) (st : RunSt) : RunSt :=
  setHdo st
    { st.hdo with
      log := st.hdo.log ++
        [{ timestamp := endT, agent_id := step.agent_id, action := step.action,
           status := .completed, duration_ms := some dur,
           details := { step_id := some step.step_id,
                        altitude := some step.altitude,
                        result_summary := some result.summary } }]
      timestamp_last_touched := endT }

/-- Embedding of _record_step_failure (the error_id key is written as None,
to be assigned later by the error path, which in fact never assigns it). -/
def recordStepFailure (step : Step) (endT dur : Nat) (e : PyErr)
    (st : RunSt) : RunSt :=
  setHdo st
    { st.hdo with
      log := st.hdo.log ++
        [{ timestamp := endT, agent_id := step.agent_id, action := step.action,
           status := .failed, duration_ms := some dur, error_id := none,
           details := { step_id := some step.step_id,
                        altitude := some step.altitude,
                        error_message := some e.msg,
                        error_type := some e.ty } }]
      timestamp_last_touched := endT }

/-- Embedding of _record_step_skipped. -/
def recordStepSkipped (step : Step) (st : RunSt) : RunSt :=
  let (t, st1) := tickNow st
  setHdo st1
    { st1.hdo with
      log := st1.hdo.log ++
        [{ timestamp := t, agent_id := step.agent_id, action := step.action,
           status := .skipped,
           details := { step_id := some step.step_id,
                        altitude := some step.altitude,
                        skip_reason := some "condition_not_met" } }]
      timestamp_last_touched := t }

/-- Embedding of _initialize_hdo_execution: ensure meta.altitude_trace
exists, append the start_orchestration entry, touch the timestamp. -/
def initializeHdoExecution (plan : Plan) (st : RunSt) : RunSt :=
  let (t, st1) := tickNow st
  let meta1 :=
    if st1.hdo.meta.altitude_trace.isNone then
      { st1.hdo.meta with altitude_trace := some [] }
    else st1.hdo.meta
  setHdo st1
    { st1.hdo with
      meta := meta1
      log := st1.hdo.log ++
        [{ timestamp := t, agent_id := "orchestra-runner",
           action := "start_orchestration", status := .started,
           details := { plan_id := some plan.plan_id,
                        plan_version := some plan.version,
                        total_steps := some plan.steps.length } }]
      timestamp_last_touched := t }

/-- Embedding of _complete_hdo_execution: append the complete_orchestration
entry (counting, over the log before the append, the entries whose details
carry a truthy step_id), set the output stage and the validated flag. -/
def completeHdoExecution (plan : Plan) (st : RunSt) : RunSt :=
  let (t, st1) := tickNow st
  setHdo st1
    { st1.hdo with
      log := st1.hdo.log ++
        [{ timestamp := t, agent_id := "orchestra-runner",
           action := "complete_orchestration", status := .completed,
           details := { plan_id := some plan.plan_id,
                        total_steps_executed :=
                          some (st1.hdo.log.filter detailStepIdTruthy).length } }]
      timestamp_last_touched := t
      stage := "output"
      validated := true }

/-- Embedding of _apply_hdo_updates: merge semantics for payload and meta,
replacement for stage, validated and promoted_to. -/
def applyHdoUpdates (u : HdoUpdates) (st : RunSt) : RunSt :=
  let h := st.hdo
  let h := match u.payload with
    | some p => { h with payload := dictUpdate h.payload p }
    | none => h
  let h := match u.meta with
    | some m => { h with meta := { h.meta with extra := dictUpdate h.meta.extra m } }
    | none => h
  let h := match u.stage with
    | some s => { h with stage := s }
    | none => h
  let h := match u.validated with
    | some v => { h with validated := v }
    | none => h
  let h := match u.promoted_to with
    | some p => { h with promoted_to := p }
    | none => h
  setHdo st h

/-- Embedding of _record_hdo_error: create the error context block if
missing, then overwrite last_error_id and increment error_count. -/
def recordHdoError (r : ErrorRecord) (st : RunSt) : RunSt :=
  let ec0 := st.hdo.meta.error_context.getD {}
  setHdo st
    { st.hdo with
      meta := { st.hdo.meta with
        error_context := some
          { ec0 with last_error_id := some r.error_id,
                     error_count := ec0.error_count + 1 } } }

/-- Embedding of _invoke_step: call orchestra_invoke with the step fields
and the current HDO context, then apply any hdo_updates of the result. -/
def invokeStep (step : Step) (st : RunSt) :
    Except PyErr DelegateResult × RunSt :=
  match orchestraInvoke step.agent_id step.action step.parameters
      (some step.step_id) (some step.altitude) step.timeout_seconds st with
  | (.ok r, st1) =>
    match r.hdo_updates with
    | some u => (.ok r, applyHdoUpdates u st1)
    | none => (.ok r, st1)
  | (.error e, st1) => (.error e, st1)

/-- Embedding of _execute_step.  The source retries by re-invoking itself;
the recursion is given a structural fuel argument whose exhaustion branch
returns the failure unchanged.  execStep_fuel_irrelevant below shows any
fuel of at least max_retries is enough, and runSteps supplies
max_retries + 1, so the exhaustion branch is unreachable. -/
def execStep (fuel : Nat) (step : Step) (st : RunSt) :
    Except PyErr Unit × RunSt :=
  if shouldExecuteStep step st.hdo then
    let (t0, stA) := tickNow st
    let stB := recordStepStart step t0 stA
    match invokeStep step stB with
    | (.ok result, stC) =>
      let (t1, stD) := tickNow stC
      (.ok (), recordStepCompletion step t1 (t1 - t0) result stD)
    | (.error e, stC) =>
      let (t1, stD) := tickNow stC
      let stE := recordStepFailure step t1 (t1 - t0) e stD
      if shouldRetryStep step e stE.hdo then
        match fuel with
        | fuel' + 1 =>
          execStep fuel' step (sleepTicks stE (step.retry_policy.backoff_seconds * 10))
        | 0 => (.error e, stE)
      else (.error e, stE)
  else (.ok (), recordStepSkipped step st)

/-- Execution of the steps of a plan strictly in list order, aborting on the
first unrecovered failure (the loop body of run_altitude_plan). -/
def runSteps : List Step → RunSt → Except PyErr Unit × RunSt
  | [], st => (.ok (), st)
  | step :: rest, st =>
    match execStep (step.retry_policy.max_retries + 1) step st with
    | (.ok _, st1) => runSteps rest st1
    | (.error e, st1) => (.error e, st1)

/-- Terminal error raised by run_altitude_plan (a RuntimeError in the
source, with the plan id and the fresh error id embedded in the message). -/
structure RaisedError where
  planId : String
  errorId : Nat
  message : String
  deriving DecidableEq, Repr

/-- Embedding of OrchestrationRunner.run_altitude_plan: work on a copy of
the HDO, initialize, run the steps in order, finalize; on any exception
build one error record, store its id in meta.error_context and raise a
RuntimeError naming the plan id and the error id. -/
def runAltitudePlan (plan : Plan) (hdo : HDO) :
    Except RaisedError HDO × RunSt :=
  let st0 : RunSt := { hdo := hdo, trace := [hdo] }
  let st1 := initializeHdoExecution plan st0
  match runSteps plan.steps st1 with
  | (.ok _, st2) =>
    let st3 := completeHdoExecution plan st2
    (.ok st3.hdo, st3)
  | (.error e, st2) =>
    let (r, st3) := buildRecord st2.hdo {} e st2
    let st4 := { st3 with runnerRecords := st3.runnerRecords ++ [r] }
    let st5 := recordHdoError r st4
    (.error
      { planId := plan.plan_id
        errorId := r.error_id
        message := "Orchestration plan " ++ plan.plan_id ++
          " failed; error_id=" ++ toString r.error_id },
     st5)

/-! ## Aliasing model for the frame claim

Python dict.copy is shallow: after self.current_hdo = hdo.copy() the log
list object is the same object as the one stored under the log key of the
callers dictionary, whenever the caller supplied that key.  Every log
mutation of the runner is an in-place append to that shared list (the code
rebinds the log key only in the branch where the caller had none), so the
log list the caller observes after the call is the runners final log.
callerLogAfter computes that caller-visible list. -/

def callerLogAfter (plan : Plan) (hdo : HDO) (callerHasLogKey : Bool) :
    List LogEntry :=
  if callerHasLogKey then (runAltitudePlan plan hdo).2.hdo.log
  else hdo.log

/-! ## Concrete fixtures used by the claim theorems -/

/-- HDO of the specification scenario: a valid process_id, everything else
fresh (empty log, empty payload, default meta). -/
def demoHdo : HDO := { process_id := "PROC-demo-20250101-120000-001" }

/-- Two-step scenario plan of the specification (input-mapper then
input-validator). -/
def demoPlan : Plan :=
  { plan_id := "plan-1", version := "1.0.0",
    steps :=
      [ { step_id := "s1", agent_id := "input-mapper", action := "map",
          altitude := 20000 },
        { step_id := "s2", agent_id := "input-validator", action := "validate",
          altitude := 20000 } ] }

/-- Observable signature of a log entry used by concrete statements. -/
def entrySig (e : LogEntry) : String × String × Status :=
  (e.agent_id, e.action, e.status)

/-- Plan with an empty steps list. -/
def emptyPlan : Plan := { plan_id := "p-empty", version := "1", steps := [] }

/-- HDO whose process_id matches no identifier pattern. -/
def badHdo : HDO := { process_id := "BAD" }

/-- Step whose delegate raises on every attempt: the db simulation with a
mode that is neither plan nor apply leaves its result variable unassigned,
so every attempt raises; agent_failure retries match any failure. -/
def failStep (n : Nat) : Step :=
  { step_id := "s1", agent_id := "db-agent", action := "write",
    parameters := [("mode", .s "weird")], altitude := 10000,
    retry_policy :=
      { max_retries := n, retry_on := ["agent_failure"], backoff_seconds := 0 } }

/-- One-step plan around failStep. -/
def failPlan (n : Nat) : Plan :=
  { plan_id := "plan-f", version := "1", steps := [failStep n] }

/-- Mapper step with a zero-second timeout budget. -/
def tStep : Step :=
  { step_id := "s1", agent_id := "input-mapper", action := "map",
    altitude := 20000, timeout_seconds := 0 }

/-- One-step plan around tStep. -/
def tPlan : Plan := { plan_id := "plan-t", version := "1", steps := [tStep] }

/-! ## Log extension order and run-state invariants -/

/-- Log extension: b is a with zero or more entries appended.  This is the
order in which the append-only log grows. -/
def logLe (a b : List LogEntry) : Prop := ∃ t, b = a ++ t

theorem logLe_refl (a : List LogEntry) : logLe a a := ⟨[], by simp⟩

theorem logLe_trans {a b c : List LogEntry} (h1 : logLe a b) (h2 : logLe b c) :
    logLe a c := by
  obtain ⟨t1, rfl⟩ := h1
  obtain ⟨t2, rfl⟩ := h2
  exact ⟨t1 ++ t2, by simp⟩

theorem logLe_append (a t : List LogEntry) : logLe a (a ++ t) := ⟨t, rfl⟩

theorem logLe_length {a b : List LogEntry} (h : logLe a b) :
    a.length ≤ b.length := by
  obtain ⟨t, rfl⟩ := h
  simp

/-- Well-formedness of the observational trace: it is non-empty, ends at the
current HDO, and consecutive snapshots only ever extend the log. -/
def StWF (st : RunSt) : Prop :=
  st.trace ≠ [] ∧ st.trace.getLast? = some st.hdo ∧
    List.Chain' (fun a b => logLe a.log b.log) st.trace

theorem setHdo_wf {st : RunSt} {h : HDO} (hwf : StWF st)
    (hlog : logLe st.hdo.log h.log) : StWF (setHdo st h) := by
  obtain ⟨hne, hlast, hchain⟩ := hwf
  refine ⟨by simp [setHdo], by simp [setHdo], ?_⟩
  rw [setHdo]
  rw [List.chain'_append]
  refine ⟨hchain, List.chain'_singleton _, ?_⟩
  intro x hx y hy
  simp at hy
  subst hy
  rw [hlast] at hx
  simp at hx
  subst hx
  exact hlog

theorem StWF.hdo_mem {st : RunSt} (hwf : StWF st) : st.hdo ∈ st.trace := by
  obtain ⟨hne, hlast, _⟩ := hwf
  have hm : st.hdo ∈ st.trace.getLast? := Option.mem_def.mpr hlast
  obtain ⟨h, heq⟩ := List.mem_getLast?_eq_getLast hm
  rw [heq]
  exact List.getLast_mem h

/-! ## Per-operation extension lemmas

Ext st st2 records everything the claim proofs need about how one embedded
operation moves the run state: the log only grows, the process_id and the
idempotency key survive, runner-level error records are untouched, the trace
only grows, and both trace well-formedness and log cleanliness (no
promotion_decision key anywhere) are preserved. -/

/-- Cleanliness of a log: no entry carries a promotion_decision key. -/
def CleanLog (log : List LogEntry) : Prop :=
  ∀ e ∈ log, e.details.promotion_decision = none

/-- Cleanliness of a run state: the working log and every trace snapshot
are clean. -/
def CleanSt (st : RunSt) : Prop :=
  CleanLog st.hdo.log ∧ ∀ h ∈ st.trace, CleanLog h.log

/-- Extension relation between run states along embedded operations. -/
def Ext (st st2 : RunSt) : Prop :=
  logLe st.hdo.log st2.hdo.log ∧
  st2.hdo.process_id = st.hdo.process_id ∧
  st2.hdo.meta.idempotency_key = st.hdo.meta.idempotency_key ∧
  st2.runnerRecords = st.runnerRecords ∧
  (∃ t, st2.trace = st.trace ++ t) ∧
  (StWF st → StWF st2) ∧
  (CleanSt st → CleanSt st2)

theorem Ext_refl (st : RunSt) : Ext st st :=
  ⟨logLe_refl _, rfl, rfl, rfl, ⟨[], by simp⟩, id, id⟩

theorem Ext_trans {a b c : RunSt} (h1 : Ext a b) (h2 : Ext b c) :
    Ext a c := by
  obtain ⟨a1, b1, c1, d1, ⟨t1, e1⟩, f1, g1⟩ := h1
  obtain ⟨a2, b2, c2, d2, ⟨t2, e2⟩, f2, g2⟩ := h2
  exact ⟨logLe_trans a1 a2, b2.trans b1, c2.trans c1, d2.trans d1,
    ⟨t1 ++ t2, by rw [e2, e1, List.append_assoc]⟩, f2 ∘ f1, g2 ∘ g1⟩

/-- Operations that leave hdo, trace and runnerRecords untouched. -/
theorem ext_of_frozen {st st2 : RunSt} (hh : st2.hdo = st.hdo)
    (ht : st2.trace = st.trace) (hr : st2.runnerRecords = st.runnerRecords) :
    Ext st st2 := by
  refine ⟨?_, by rw [hh], by rw [hh], hr, ⟨[], by simp [ht]⟩, ?_, ?_⟩
  · rw [hh]; exact logLe_refl _
  · intro hwf; rw [StWF, hh, ht]; exact hwf
  · intro hc; rw [CleanSt, hh, ht]; exact hc

theorem ext_tickNow (st : RunSt) : Ext st (tickNow st).2 :=
  ext_of_frozen rfl rfl rfl

theorem ext_sleepTicks (st : RunSt) (n : Nat) : Ext st (sleepTicks st n) :=
  ext_of_frozen rfl rfl rfl

theorem ext_buildRecord (h : HDO) (ctx : Ctx) (e : PyErr) (st : RunSt) :
    Ext st (buildRecord h ctx e st).2 :=
  ext_of_frozen rfl rfl rfl

/-- Common shape of the mutating methods: one setHdo whose new HDO appends
entries to the log and keeps process_id and the idempotency key. -/
theorem ext_setHdo_append (es : List LogEntry) {st : RunSt} {h : HDO}
    (hlog : h.log = st.hdo.log ++ es)
    (hpid : h.process_id = st.hdo.process_id)
    (hidem : h.meta.idempotency_key = st.hdo.meta.idempotency_key)
    (hclean : ∀ e ∈ es, e.details.promotion_decision = none) :
    Ext st (setHdo st h) := by
  refine ⟨⟨es, by simp [setHdo, hlog]⟩, by simp [setHdo, hpid],
    by simp [setHdo, hidem], by simp [setHdo], ⟨[h], by simp [setHdo]⟩, ?_, ?_⟩
  · intro hwf
    exact setHdo_wf hwf ⟨es, hlog⟩
  · rintro ⟨hc1, hc2⟩
    have hch : CleanLog h.log := by
      rw [hlog]
      intro e he
      rcases List.mem_append.mp he with hl | hr
      · exact hc1 e hl
      · exact hclean e hr
    refine ⟨by simpa [setHdo] using hch, ?_⟩
    intro h2 hh2
    simp only [setHdo, List.mem_append, List.mem_singleton] at hh2
    rcases hh2 with hl | rfl
    · exact hc2 h2 hl
    · exact hch

theorem ext_recordStepStart (step : Step) (t : Nat) (st : RunSt) :
    Ext st (recordStepStart step t st) := by
  unfold recordStepStart
  exact ext_setHdo_append _ rfl rfl rfl (by intro e he; simp at he; subst he; rfl)

theorem ext_recordStepCompletion (step : Step) (endT dur : Nat)
    (r : DelegateResult) (st : RunSt) :
    Ext st (recordStepCompletion step endT dur r st) := by
  unfold recordStepCompletion
  exact ext_setHdo_append _ rfl rfl rfl (by intro e he; simp at he; subst he; rfl)

theorem ext_recordStepFailure (step : Step) (endT dur : Nat) (e : PyErr)
    (st : RunSt) : Ext st (recordStepFailure step endT dur e st) := by
  unfold recordStepFailure
  exact ext_setHdo_append _ rfl rfl rfl (by intro x hx; simp at hx; subst hx; rfl)

theorem ext_recordStepSkipped (step : Step) (st : RunSt) :
    Ext st (recordStepSkipped step st) := by
  simp only [recordStepSkipped, tickNow]
  refine Ext_trans (b := { st with clock := st.clock + 1 })
    (ext_of_frozen rfl rfl rfl) ?_
  exact ext_setHdo_append _ rfl rfl rfl (by intro x hx; simp at hx; subst hx; rfl)

theorem ext_initializeHdoExecution (plan : Plan) (st : RunSt) :
    Ext st (initializeHdoExecution plan st) := by
  simp only [initializeHdoExecution, tickNow]
  refine Ext_trans (b := { st with clock := st.clock + 1 })
    (ext_of_frozen rfl rfl rfl) ?_
  split
  · exact ext_setHdo_append _ rfl rfl rfl
      (by intro x hx; simp at hx; subst hx; rfl)
  · exact ext_setHdo_append _ rfl rfl rfl
      (by intro x hx; simp at hx; subst hx; rfl)

theorem ext_completeHdoExecution (plan : Plan) (st : RunSt) :
    Ext st (completeHdoExecution plan st) := by
  simp only [completeHdoExecution, tickNow]
  refine Ext_trans (b := { st with clock := st.clock + 1 })
    (ext_of_frozen rfl rfl rfl) ?_
  exact ext_setHdo_append _ rfl rfl rfl (by intro x hx; simp at hx; subst hx; rfl)

theorem ext_applyHdoUpdates (u : HdoUpdates) (st : RunSt) :
    Ext st (applyHdoUpdates u st) := by
  unfold applyHdoUpdates
  split <;> split <;> split <;> split <;> split <;>
    exact ext_setHdo_append [] (by simp) (by simp) (by simp)
      (by intro x hx; simp at hx)

theorem ext_recordHdoError (r : ErrorRecord) (st : RunSt) :
    Ext st (recordHdoError r st) := by
  unfold recordHdoError
  exact ext_setHdo_append [] (by simp) (by simp) (by simp)
    (by intro x hx; simp at hx)

/-- The delegate layer never touches the HDO, the trace or the runner-level
records: it only advances the clock and, on failure, reports the error. -/
theorem delegateToAgent_frozen (i a : String) (p : List (String × JVal))
    (t : Nat) (st : RunSt) :
    (delegateToAgent i a p t st).2.hdo = st.hdo ∧
    (delegateToAgent i a p t st).2.trace = st.trace ∧
    (delegateToAgent i a p t st).2.runnerRecords = st.runnerRecords := by
  unfold delegateToAgent
  cases hc : delegateCategory i <;> simp [hc, sleepTicks]

/-- orchestra_invoke never touches the HDO, the trace or the runner-level
records (its own error record goes to the global records list only). -/
theorem orchestraInvoke_frozen (i a : String) (p : List (String × JVal))
    (sid : Option String) (alt : Option Int) (t : Nat) (st : RunSt) :
    (orchestraInvoke i a p sid alt t st).2.hdo = st.hdo ∧
    (orchestraInvoke i a p sid alt t st).2.trace = st.trace ∧
    (orchestraInvoke i a p sid alt t st).2.runnerRecords = st.runnerRecords := by
  unfold orchestraInvoke
  by_cases h1 : i = ""
  · simp [h1]
  by_cases h2 : a = ""
  · simp [h1, h2]
  by_cases h3 : st.hdo.process_id = ""
  · simp [h1, h2, h3]
  simp only [h1, h2, h3, if_neg, if_false, ite_false]
  rcases hv : validateHeirIds st.hdo.process_id st.hdo.meta with e | u
  · exact ⟨rfl, rfl, rfl⟩
  · rcases hd : delegateToAgent i a p t st with ⟨res, st1⟩
    have hfz := delegateToAgent_frozen i a p t st
    rw [hd] at hfz
    cases res with
    | ok r => exact hfz
    | error e => simpa [buildRecord] using hfz

/-- Applying hdo_updates never changes the log. -/
theorem applyHdoUpdates_log (u : HdoUpdates) (st : RunSt) :
    (applyHdoUpdates u st).hdo.log = st.hdo.log := by
  unfold applyHdoUpdates
  split <;> split <;> split <;> split <;> split <;> simp [setHdo]

/-- A step invocation (orchestra_invoke plus hdo_updates application) never
changes the log. -/
theorem invokeStep_log (s : Step) (st : RunSt) :
    (invokeStep s st).2.hdo.log = st.hdo.log := by
  unfold invokeStep
  rcases ho : orchestraInvoke s.agent_id s.action s.parameters
      (some s.step_id) (some s.altitude) s.timeout_seconds st with ⟨res, st1⟩
  have hfz := orchestraInvoke_frozen s.agent_id s.action s.parameters
      (some s.step_id) (some s.altitude) s.timeout_seconds st
  rw [ho] at hfz
  dsimp only at hfz
  cases res with
  | ok r =>
    cases hu : r.hdo_updates with
    | some u => simp [hu, applyHdoUpdates_log, hfz.1]
    | none => simp [hu, hfz.1]
  | error e => simp [hfz.1]

/-- Ext holds across a step invocation. -/
theorem ext_invokeStep (s : Step) (st : RunSt) : Ext st (invokeStep s st).2 := by
  unfold invokeStep
  rcases ho : orchestraInvoke s.agent_id s.action s.parameters
      (some s.step_id) (some s.altitude) s.timeout_seconds st with ⟨res, st1⟩
  have hfz := orchestraInvoke_frozen s.agent_id s.action s.parameters
      (some s.step_id) (some s.altitude) s.timeout_seconds st
  rw [ho] at hfz
  dsimp only at hfz
  have hbase : Ext st st1 := ext_of_frozen hfz.1 hfz.2.1 hfz.2.2
  cases res with
  | ok r =>
    dsimp only
    cases hu : r.hdo_updates with
    | some u => exact Ext_trans hbase (ext_applyHdoUpdates u st1)
    | none => exact hbase
  | error e => exact hbase

theorem recordStepStart_len (s : Step) (t : Nat) (st : RunSt) :
    (recordStepStart s t st).hdo.log.length = st.hdo.log.length + 1 := by
  simp [recordStepStart, setHdo]

theorem recordStepCompletion_len (s : Step) (endT dur : Nat)
    (r : DelegateResult) (st : RunSt) :
    (recordStepCompletion s endT dur r st).hdo.log.length =
      st.hdo.log.length + 1 := by
  simp [recordStepCompletion, setHdo]

theorem recordStepFailure_len (s : Step) (endT dur : Nat) (e : PyErr)
    (st : RunSt) :
    (recordStepFailure s endT dur e st).hdo.log.length =
      st.hdo.log.length + 1 := by
  simp [recordStepFailure, setHdo]

theorem recordStepSkipped_len (s : Step) (st : RunSt) :
    (recordStepSkipped s st).hdo.log.length = st.hdo.log.length + 1 := by
  simp [recordStepSkipped, tickNow, setHdo]

/-- Combined step invariant: the state extends and the log strictly grows
(every executed or skipped step appends at least one entry). -/
def ExtLen (a b : RunSt) : Prop :=
  Ext a b ∧ a.hdo.log.length + 1 ≤ b.hdo.log.length

theorem execStep_extLen (f : Nat) (s : Step) (st : RunSt) :
    ExtLen st (execStep f s st).2 := by
  induction f generalizing st with
  | zero =>
    rw [execStep.eq_def]
    by_cases hx : shouldExecuteStep s st.hdo = true
    · rw [if_pos hx]
      simp only [tickNow]
      rcases hinv : invokeStep s
          (recordStepStart s st.clock { st with clock := st.clock + 1 }) with ⟨res, stC⟩
      have hlog : stC.hdo.log =
          (recordStepStart s st.clock { st with clock := st.clock + 1 }).hdo.log := by
        have h := invokeStep_log s
          (recordStepStart s st.clock { st with clock := st.clock + 1 })
        rw [hinv] at h
        exact h
      have hextB : Ext st
          (recordStepStart s st.clock { st with clock := st.clock + 1 }) :=
        Ext_trans (ext_of_frozen rfl rfl rfl)
          (ext_recordStepStart s st.clock { st with clock := st.clock + 1 })
      have hextC : Ext st stC := by
        have h := ext_invokeStep s
          (recordStepStart s st.clock { st with clock := st.clock + 1 })
        rw [hinv] at h
        exact Ext_trans hextB h
      have hlenC : stC.hdo.log.length = st.hdo.log.length + 1 := by
        rw [hlog, recordStepStart_len]
      cases res with
      | ok r =>
        simp only [tickNow]
        refine ⟨Ext_trans hextC (Ext_trans (ext_of_frozen rfl rfl rfl)
          (ext_recordStepCompletion s stC.clock (stC.clock - st.clock) r
            { stC with clock := stC.clock + 1 })), ?_⟩
        have hfin := recordStepCompletion_len s stC.clock (stC.clock - st.clock) r
          { stC with clock := stC.clock + 1 }
        rw [hfin]
        dsimp only
        omega
      | error e =>
        simp only [tickNow]
        have hextE : Ext st
            (recordStepFailure s stC.clock (stC.clock - st.clock) e
              { stC with clock := stC.clock + 1 }) :=
          Ext_trans hextC (Ext_trans (ext_of_frozen rfl rfl rfl)
            (ext_recordStepFailure s stC.clock (stC.clock - st.clock) e
              { stC with clock := stC.clock + 1 }))
        have hlenE : (recordStepFailure s stC.clock (stC.clock - st.clock) e
            { stC with clock := stC.clock + 1 }).hdo.log.length =
            st.hdo.log.length + 2 := by
          rw [recordStepFailure_len]
          dsimp only
          omega
        split
        · exact ⟨hextE, by dsimp only; omega⟩
        · exact ⟨hextE, by dsimp only; omega⟩
    · rw [if_neg hx]
      exact ⟨ext_recordStepSkipped s st, by rw [recordStepSkipped_len]⟩
  | succ n ih =>
    rw [execStep.eq_def]
    by_cases hx : shouldExecuteStep s st.hdo = true
    · rw [if_pos hx]
      simp only [tickNow]
      rcases hinv : invokeStep s
          (recordStepStart s st.clock { st with clock := st.clock + 1 }) with ⟨res, stC⟩
      have hlog : stC.hdo.log =
          (recordStepStart s st.clock { st with clock := st.clock + 1 }).hdo.log := by
        have h := invokeStep_log s
          (recordStepStart s st.clock { st with clock := st.clock + 1 })
        rw [hinv] at h
        exact h
      have hextB : Ext st
          (recordStepStart s st.clock { st with clock := st.clock + 1 }) :=
        Ext_trans (ext_of_frozen rfl rfl rfl)
          (ext_recordStepStart s st.clock { st with clock := st.clock + 1 })
      have hextC : Ext st stC := by
        have h := ext_invokeStep s
          (recordStepStart s st.clock { st with clock := st.clock + 1 })
        rw [hinv] at h
        exact Ext_trans hextB h
      have hlenC : stC.hdo.log.length = st.hdo.log.length + 1 := by
        rw [hlog, recordStepStart_len]
      cases res with
      | ok r =>
        simp only [tickNow]
        refine ⟨Ext_trans hextC (Ext_trans (ext_of_frozen rfl rfl rfl)
          (ext_recordStepCompletion s stC.clock (stC.clock - st.clock) r
            { stC with clock := stC.clock + 1 })), ?_⟩
        have hfin := recordStepCompletion_len s stC.clock (stC.clock - st.clock) r
          { stC with clock := stC.clock + 1 }
        rw [hfin]
        dsimp only
        omega
      | error e =>
        simp only [tickNow]
        have hextE : Ext st
            (recordStepFailure s stC.clock (stC.clock - st.clock) e
              { stC with clock := stC.clock + 1 }) :=
          Ext_trans hextC (Ext_trans (ext_of_frozen rfl rfl rfl)
            (ext_recordStepFailure s stC.clock (stC.clock - st.clock) e
              { stC with clock := stC.clock + 1 }))
        have hlenE : (recordStepFailure s stC.clock (stC.clock - st.clock) e
            { stC with clock := stC.clock + 1 }).hdo.log.length =
            st.hdo.log.length + 2 := by
          rw [recordStepFailure_len]
          dsimp only
          omega
        split
        · obtain ⟨ihExt, ihLen⟩ := ih (sleepTicks
            (recordStepFailure s stC.clock (stC.clock - st.clock) e
              { stC with clock := stC.clock + 1 })
            (s.retry_policy.backoff_seconds * 10))
          refine ⟨Ext_trans hextE (Ext_trans
            (ext_sleepTicks _ (s.retry_policy.backoff_seconds * 10)) ihExt), ?_⟩
          have hs : (sleepTicks
              (recordStepFailure s stC.clock (stC.clock - st.clock) e
                { stC with clock := stC.clock + 1 })
              (s.retry_policy.backoff_seconds * 10)).hdo.log.length =
              (recordStepFailure s stC.clock (stC.clock - st.clock) e
                { stC with clock := stC.clock + 1 }).hdo.log.length := rfl
          omega
        · exact ⟨hextE, by dsimp only; omega⟩
    · rw [if_neg hx]
      exact ⟨ext_recordStepSkipped s st, by rw [recordStepSkipped_len]⟩

theorem ext_execStep (f : Nat) (s : Step) (st : RunSt) :
    Ext st (execStep f s st).2 :=
  (execStep_extLen f s st).1

theorem execStep_len (f : Nat) (s : Step) (st : RunSt) :
    st.hdo.log.length + 1 ≤ (execStep f s st).2.hdo.log.length :=
  (execStep_extLen f s st).2

/-- Ext holds across the full step loop. -/
theorem ext_runSteps (steps : List Step) (st : RunSt) :
    Ext st (runSteps steps st).2 := by
  induction steps generalizing st with
  | nil => exact Ext_refl st
  | cons s rest ih =>
    rw [runSteps]
    rcases he : execStep (s.retry_policy.max_retries + 1) s st with ⟨res, st1⟩
    have hext : Ext st st1 := by
      have h := ext_execStep (s.retry_policy.max_retries + 1) s st
      rw [he] at h
      exact h
    cases res with
    | ok u => exact Ext_trans hext (ih st1)
    | error e => exact hext

/-- On success the step loop appends at least one entry per step. -/
theorem runSteps_ok_len (steps : List Step) (st : RunSt) (st2 : RunSt)
    (h : runSteps steps st = (.ok (), st2)) :
    st.hdo.log.length + steps.length ≤ st2.hdo.log.length := by
  induction steps generalizing st with
  | nil =>
    rw [runSteps] at h
    cases h
    simp
  | cons s rest ih =>
    rw [runSteps] at h
    rcases he : execStep (s.retry_policy.max_retries + 1) s st with ⟨res, st1⟩
    rw [he] at h
    cases res with
    | ok u =>
      have hlen := execStep_len (s.retry_policy.max_retries + 1) s st
      rw [he] at hlen
      dsimp only at hlen
      have := ih st1 h
      simp only [List.length_cons]
      omega
    | error e => cases h

/-! ## Counting, cleanliness and structural facts about single methods -/

theorem getStepRetryCount_start (sid : String) (s : Step) (t : Nat)
    (st : RunSt) :
    getStepRetryCount sid (recordStepStart s t st).hdo.log =
      getStepRetryCount sid st.hdo.log := by
  simp [getStepRetryCount, recordStepStart, setHdo, List.filter_append]

theorem getStepRetryCount_failure (s : Step) (t d : Nat) (e : PyErr)
    (st : RunSt) :
    getStepRetryCount s.step_id (recordStepFailure s t d e st).hdo.log =
      getStepRetryCount s.step_id st.hdo.log + 1 := by
  simp [getStepRetryCount, recordStepFailure, setHdo, List.filter_append]

theorem getStepRetryCount_initialize (sid : String) (plan : Plan)
    (st : RunSt) :
    getStepRetryCount sid (initializeHdoExecution plan st).hdo.log =
      getStepRetryCount sid st.hdo.log := by
  simp only [initializeHdoExecution, tickNow]
  split <;> simp [getStepRetryCount, setHdo, List.filter_append]

theorem recordHdoError_log (r : ErrorRecord) (st : RunSt) :
    (recordHdoError r st).hdo.log = st.hdo.log := by
  simp [recordHdoError, setHdo]

theorem recordHdoError_ctx (r : ErrorRecord) (st : RunSt) :
    ∃ ec : ErrorContext, (recordHdoError r st).hdo.meta.error_context = some ec ∧
      ec.last_error_id = some r.error_id := by
  refine ⟨{ st.hdo.meta.error_context.getD {} with
            last_error_id := some r.error_id,
            error_count := (st.hdo.meta.error_context.getD {}).error_count + 1 },
          ?_, rfl⟩
  simp [recordHdoError, setHdo]

theorem initializeHdoExecution_len (plan : Plan) (st : RunSt) :
    (initializeHdoExecution plan st).hdo.log.length =
      st.hdo.log.length + 1 := by
  simp only [initializeHdoExecution, tickNow]
  split <;> simp [setHdo]

theorem completeHdoExecution_spec (plan : Plan) (st : RunSt) :
    (completeHdoExecution plan st).hdo.log = st.hdo.log ++
      [{ timestamp := st.clock, agent_id := "orchestra-runner",
         action := "complete_orchestration", status := Status.completed,
         details := { plan_id := some plan.plan_id,
                      total_steps_executed :=
                        some (st.hdo.log.filter detailStepIdTruthy).length } }] ∧
    (completeHdoExecution plan st).hdo.stage = "output" ∧
    (completeHdoExecution plan st).hdo.validated = true := by
  refine ⟨?_, ?_, ?_⟩ <;> simp [completeHdoExecution, tickNow, setHdo]

/-- Over a clean log (no promotion_decision key anywhere) the promotion
check of the runner is always false. -/
theorem checkPromotionDecision_eq_false {log : List LogEntry}
    (hc : CleanLog log) : checkPromotionDecision log = false := by
  unfold checkPromotionDecision
  rcases hf : log.reverse.find?
      (fun e => (e.agent_id == "middle-subagent-enforcer") &&
                (e.status == Status.completed) &&
                e.details.promotion_decision.isSome) with _ | e
  · rw [hf]
  · have hmem : e ∈ log.reverse := List.mem_of_find?_eq_some hf
    have hp := List.find?_some hf
    have : e.details.promotion_decision = none :=
      hc e (List.mem_reverse.mp hmem)
    rw [this] at hp
    simp at hp

/-- Validation only reads the process id and the idempotency key. -/
theorem validateHeirIds_congr (p : String) {m1 m2 : HdoMeta}
    (h : m1.idempotency_key = m2.idempotency_key) :
    validateHeirIds p m1 = validateHeirIds p m2 := by
  unfold validateHeirIds
  rw [h]

/-- Chain of log extensions along the trace gives all pairwise
extensions. -/
theorem pairwise_of_chain' {l : List HDO}
    (h : List.Chain' (fun a b => logLe a.log b.log) l) :
    List.Pairwise (fun a b => logLe a.log b.log) l := by
  haveI : IsTrans HDO (fun a b => logLe a.log b.log) :=
    ⟨fun a b c hab hbc => logLe_trans hab hbc⟩
  exact List.chain'_iff_pairwise.mp h

/-- Decomposition of _should_retry_step as a plain proposition. -/
theorem shouldRetryStep_iff (s : Step) (e : PyErr) (h : HDO) :
    shouldRetryStep s e h = true ↔
      (s.retry_policy.max_retries ≠ 0 ∧
       getStepRetryCount s.step_id h.log < s.retry_policy.max_retries ∧
       ((strContains (lowerStr e.msg) "timeout" = true ∧
         s.retry_policy.retry_on.contains "timeout" = true) ∨
        s.retry_policy.retry_on.contains "agent_failure" = true)) := by
  constructor
  · intro ht
    unfold shouldRetryStep at ht
    dsimp only at ht
    split at ht
    · cases ht
    · rename_i h0
      split at ht
      · cases ht
      · rename_i h1
        refine ⟨h0, by omega, ?_⟩
        split at ht
        · rename_i h2
          rw [Bool.and_eq_true] at h2
          exact Or.inl h2
        · split at ht
          · rename_i h3
            exact Or.inr h3
          · cases ht
  · rintro ⟨h0, h1, h2⟩
    unfold shouldRetryStep
    dsimp only
    rw [if_neg h0, if_neg (by omega)]
    rcases h2 with ⟨ht, hr⟩ | ha
    · rw [ht, hr]
      rfl
    · split
      · rfl
      · simp [ha]

/-! ## Top-level decomposition of run_altitude_plan -/

/-- Initial run state of one invocation (the private copy of the callers
HDO, with the copy itself as the first trace snapshot). -/
def initSt (hdo : HDO) : RunSt := { hdo := hdo, trace := [hdo] }

/-- Case split of run_altitude_plan: either every step succeeded and the
completion method produces the returned HDO, or the loop raised and the
runner-level error path built one record, stored its id and raised the
correlated RuntimeError. -/
theorem runAltitudePlan_split (plan : Plan) (hdo : HDO) :
    (∃ st2, runSteps plan.steps (initializeHdoExecution plan (initSt hdo)) =
        (.ok (), st2) ∧
      runAltitudePlan plan hdo =
        (.ok (completeHdoExecution plan st2).hdo, completeHdoExecution plan st2)) ∨
    (∃ e st2, runSteps plan.steps (initializeHdoExecution plan (initSt hdo)) =
        (.error e, st2) ∧
      runAltitudePlan plan hdo =
        (.error
          { planId := plan.plan_id
            errorId := (buildRecord st2.hdo {} e st2).1.error_id
            message := "Orchestration plan " ++ plan.plan_id ++
              " failed; error_id=" ++
              toString (buildRecord st2.hdo {} e st2).1.error_id },
         recordHdoError (buildRecord st2.hdo {} e st2).1
           { (buildRecord st2.hdo {} e st2).2 with
             runnerRecords := (buildRecord st2.hdo {} e st2).2.runnerRecords ++
               [(buildRecord st2.hdo {} e st2).1] })) := by
  unfold runAltitudePlan initSt
  dsimp only
  rcases hr : runSteps plan.steps
      (initializeHdoExecution plan { hdo := hdo, trace := [hdo] })
    with ⟨res, st2⟩
  cases res with
  | ok u => exact Or.inl ⟨st2, rfl, rfl⟩
  | error e => exact Or.inr ⟨e, st2, rfl, rfl⟩

/-- Weak extension: like Ext but without the runnerRecords clause, so it
also holds across the runner-level error path. -/
def ExtW (a b : RunSt) : Prop :=
  logLe a.hdo.log b.hdo.log ∧ (∃ t, b.trace = a.trace ++ t) ∧
    (StWF a → StWF b) ∧ (CleanSt a → CleanSt b)

theorem ExtW_of_ext {a b : RunSt} (h : Ext a b) : ExtW a b :=
  ⟨h.1, h.2.2.2.2.1, h.2.2.2.2.2.1, h.2.2.2.2.2.2⟩

theorem ExtW_trans {a b c : RunSt} (h1 : ExtW a b) (h2 : ExtW b c) :
    ExtW a c := by
  obtain ⟨a1, ⟨t1, e1⟩, f1, g1⟩ := h1
  obtain ⟨a2, ⟨t2, e2⟩, f2, g2⟩ := h2
  exact ⟨logLe_trans a1 a2, ⟨t1 ++ t2, by rw [e2, e1, List.append_assoc]⟩,
    f2 ∘ f1, g2 ∘ g1⟩

theorem ExtW_frozen {a b : RunSt} (hh : b.hdo = a.hdo)
    (ht : b.trace = a.trace) : ExtW a b := by
  refine ⟨by rw [hh]; exact logLe_refl _, ⟨[], by simp [ht]⟩, ?_, ?_⟩
  · intro hwf; rw [StWF, hh, ht]; exact hwf
  · intro hc; rw [CleanSt, hh, ht]; exact hc

/-- The run state extends weakly from the initial copy to the final state,
in both outcomes. -/
theorem run_extW (plan : Plan) (hdo : HDO) :
    ExtW (initSt hdo) (runAltitudePlan plan hdo).2 := by
  have hinit : ExtW (initSt hdo) (initializeHdoExecution plan (initSt hdo)) :=
    ExtW_of_ext (ext_initializeHdoExecution plan (initSt hdo))
  rcases runAltitudePlan_split plan hdo with ⟨st2, hr, heq⟩ | ⟨e, st2, hr, heq⟩
  · rw [heq]
    have hsteps : ExtW (initializeHdoExecution plan (initSt hdo)) st2 := by
      have h := ext_runSteps plan.steps (initializeHdoExecution plan (initSt hdo))
      rw [hr] at h
      exact ExtW_of_ext h
    exact ExtW_trans hinit (ExtW_trans hsteps
      (ExtW_of_ext (ext_completeHdoExecution plan st2)))
  · rw [heq]
    have hsteps : ExtW (initializeHdoExecution plan (initSt hdo)) st2 := by
      have h := ext_runSteps plan.steps (initializeHdoExecution plan (initSt hdo))
      rw [hr] at h
      exact ExtW_of_ext h
    have hb : ExtW st2 (buildRecord st2.hdo {} e st2).2 :=
      ExtW_of_ext (ext_buildRecord st2.hdo {} e st2)
    have hp : ExtW (buildRecord st2.hdo {} e st2).2
        { (buildRecord st2.hdo {} e st2).2 with
          runnerRecords := (buildRecord st2.hdo {} e st2).2.runnerRecords ++
            [(buildRecord st2.hdo {} e st2).1] } :=
      ExtW_frozen rfl rfl
    have hrec : ExtW
        { (buildRecord st2.hdo {} e st2).2 with
          runnerRecords := (buildRecord st2.hdo {} e st2).2.runnerRecords ++
            [(buildRecord st2.hdo {} e st2).1] }
        (recordHdoError (buildRecord st2.hdo {} e st2).1
          { (buildRecord st2.hdo {} e st2).2 with
            runnerRecords := (buildRecord st2.hdo {} e st2).2.runnerRecords ++
              [(buildRecord st2.hdo {} e st2).1] }) :=
      ExtW_of_ext (ext_recordHdoError _ _)
    exact ExtW_trans hinit (ExtW_trans hsteps
      (ExtW_trans hb (ExtW_trans hp hrec)))

theorem initSt_wf (hdo : HDO) : StWF (initSt hdo) :=
  ⟨by simp [initSt], by simp [initSt], by simp [initSt]⟩

theorem initSt_clean {hdo : HDO} (hc : CleanLog hdo.log) :
    CleanSt (initSt hdo) := by
  refine ⟨hc, ?_⟩
  intro h hm
  simp [initSt] at hm
  subst hm
  exact hc

/-- Well-formedness, head of the trace, log extension and the minimal log
growth of one full invocation. -/
theorem run_st_facts (plan : Plan) (hdo : HDO) :
    StWF (runAltitudePlan plan hdo).2 ∧
    (∃ t, (runAltitudePlan plan hdo).2.trace = hdo :: t) ∧
    logLe hdo.log (runAltitudePlan plan hdo).2.hdo.log ∧
    (CleanLog hdo.log → CleanSt (runAltitudePlan plan hdo).2) := by
  have h := run_extW plan hdo
  obtain ⟨hlog, ⟨t, ht⟩, hwf, hclean⟩ := h
  refine ⟨hwf (initSt_wf hdo), ⟨t, by simpa [initSt] using ht⟩, hlog, ?_⟩
  intro hc
  exact hclean (initSt_clean hc)

/-! ## Always-failing configurations

Two families of invocations fail on every attempt: the db simulation with an
unknown mode (the delegate raises), and any invocation whose process id
fails the pattern (validation raises before the delegate).  The lemmas below
drive the retry-count and identifier claims. -/

theorem validateOk_pid_ne {st : RunSt}
    (hv : validateHeirIds st.hdo.process_id st.hdo.meta = .ok ()) :
    st.hdo.process_id ≠ "" := by
  intro h
  rw [h] at hv
  unfold validateHeirIds at hv
  rw [show procPat "" = false from by decide] at hv
  simp at hv

theorem shouldExecute_failStep (N : Nat) (h : HDO) :
    shouldExecuteStep (failStep N) h = true := rfl

theorem orchestraInvoke_failStep (st : RunSt)
    (hv : validateHeirIds st.hdo.process_id st.hdo.meta = .ok ()) :
    ∃ e st1, orchestraInvoke "db-agent" "write" [("mode", JVal.s "weird")]
      (some "s1") (some 10000) 120 st = (.error e, st1) := by
  have hne := validateOk_pid_ne hv
  unfold orchestraInvoke
  rw [if_neg (by decide : ¬("db-agent" = "")),
      if_neg (by decide : ¬("write" = "")), if_neg hne, hv]
  have hd : delegateToAgent "db-agent" "write" [("mode", JVal.s "weird")] 120 st =
      (.error ⟨"UnboundLocalError",
        "cannot access local variable result where it is not associated with a value"⟩,
       sleepTicks st 8) := rfl
  rw [hd]
  exact ⟨_, _, rfl⟩

theorem invokeStep_failStep (N : Nat) (st : RunSt)
    (hv : validateHeirIds st.hdo.process_id st.hdo.meta = .ok ()) :
    ∃ e st1, invokeStep (failStep N) st = (.error e, st1) := by
  obtain ⟨e, st1, hoi⟩ := orchestraInvoke_failStep st hv
  unfold invokeStep
  rw [show (failStep N).agent_id = "db-agent" from rfl,
      show (failStep N).action = "write" from rfl,
      show (failStep N).parameters = [("mode", JVal.s "weird")] from rfl,
      show (failStep N).step_id = "s1" from rfl,
      show (failStep N).altitude = (10000 : Int) from rfl,
      show (failStep N).timeout_seconds = 120 from rfl, hoi]
  exact ⟨e, st1, rfl⟩

theorem execStep_failStep (N : Nat) : ∀ (f : Nat) (st : RunSt),
    validateHeirIds st.hdo.process_id st.hdo.meta = .ok () →
    N ≤ f + getStepRetryCount "s1" st.hdo.log →
    ∃ e st1, execStep f (failStep N) st = (.error e, st1) ∧
      getStepRetryCount "s1" st1.hdo.log =
        max N (getStepRetryCount "s1" st.hdo.log + 1) := by
  intro f
  induction f with
  | zero =>
    intro st hv hcnt
    rw [execStep.eq_def, if_pos (shouldExecute_failStep N st.hdo)]
    simp only [tickNow]
    obtain ⟨e0, st1, hoi⟩ := invokeStep_failStep N
      (recordStepStart (failStep N) st.clock { st with clock := st.clock + 1 }) hv
    rw [hoi]
    simp only [tickNow]
    have hlog1 : st1.hdo.log =
        (recordStepStart (failStep N) st.clock
          { st with clock := st.clock + 1 }).hdo.log := by
      have h := invokeStep_log (failStep N)
        (recordStepStart (failStep N) st.clock { st with clock := st.clock + 1 })
      rw [hoi] at h
      exact h
    have hc1 : getStepRetryCount "s1" st1.hdo.log =
        getStepRetryCount "s1" st.hdo.log := by
      rw [hlog1]
      exact getStepRetryCount_start "s1" (failStep N) st.clock
        { st with clock := st.clock + 1 }
    have hcE : getStepRetryCount "s1"
        (recordStepFailure (failStep N) st1.clock (st1.clock - st.clock) e0
          { st1 with clock := st1.clock + 1 }).hdo.log =
        getStepRetryCount "s1" st.hdo.log + 1 := by
      have hf := getStepRetryCount_failure (failStep N) st1.clock
        (st1.clock - st.clock) e0 { st1 with clock := st1.clock + 1 }
      rw [show (failStep N).step_id = "s1" from rfl] at hf
      rw [hf, show ({ st1 with clock := st1.clock + 1 } : RunSt).hdo.log = st1.hdo.log
          from rfl, hc1]
    by_cases hr : shouldRetryStep (failStep N) e0
        (recordStepFailure (failStep N) st1.clock (st1.clock - st.clock) e0
          { st1 with clock := st1.clock + 1 }).hdo = true
    · rw [if_pos hr]
      obtain ⟨hN0, hlt, _⟩ := (shouldRetryStep_iff _ _ _).mp hr
      have hlt2 : getStepRetryCount "s1"
          (recordStepFailure (failStep N) st1.clock (st1.clock - st.clock) e0
            { st1 with clock := st1.clock + 1 }).hdo.log < N := hlt
      exact ⟨e0, _, rfl, by omega⟩
    · rw [if_neg hr]
      have h3 : (failStep N).retry_policy.retry_on.contains "agent_failure" = true := rfl
      have hnr2 : ¬(N ≠ 0 ∧
          getStepRetryCount "s1"
            (recordStepFailure (failStep N) st1.clock (st1.clock - st.clock) e0
              { st1 with clock := st1.clock + 1 }).hdo.log < N) := by
        intro hand
        exact hr ((shouldRetryStep_iff _ _ _).mpr ⟨hand.1, hand.2, Or.inr h3⟩)
      have hN : N = 0 ∨
          getStepRetryCount "s1"
            (recordStepFailure (failStep N) st1.clock (st1.clock - st.clock) e0
              { st1 with clock := st1.clock + 1 }).hdo.log ≥ N := by
        by_cases hz : N = 0
        · exact Or.inl hz
        · right
          by_contra hlt
          exact hnr2 ⟨hz, by omega⟩
      exact ⟨e0, _, rfl, by rcases hN with hz | hge <;> omega⟩
  | succ n ih =>
    intro st hv hcnt
    rw [execStep.eq_def, if_pos (shouldExecute_failStep N st.hdo)]
    simp only [tickNow]
    obtain ⟨e0, st1, hoi⟩ := invokeStep_failStep N
      (recordStepStart (failStep N) st.clock { st with clock := st.clock + 1 }) hv
    rw [hoi]
    simp only [tickNow]
    have hlog1 : st1.hdo.log =
        (recordStepStart (failStep N) st.clock
          { st with clock := st.clock + 1 }).hdo.log := by
      have h := invokeStep_log (failStep N)
        (recordStepStart (failStep N) st.clock { st with clock := st.clock + 1 })
      rw [hoi] at h
      exact h
    have hc1 : getStepRetryCount "s1" st1.hdo.log =
        getStepRetryCount "s1" st.hdo.log := by
      rw [hlog1]
      exact getStepRetryCount_start "s1" (failStep N) st.clock
        { st with clock := st.clock + 1 }
    have hcE : getStepRetryCount "s1"
        (recordStepFailure (failStep N) st1.clock (st1.clock - st.clock) e0
          { st1 with clock := st1.clock + 1 }).hdo.log =
        getStepRetryCount "s1" st.hdo.log + 1 := by
      have hf := getStepRetryCount_failure (failStep N) st1.clock
        (st1.clock - st.clock) e0 { st1 with clock := st1.clock + 1 }
      rw [show (failStep N).step_id = "s1" from rfl] at hf
      rw [hf, show ({ st1 with clock := st1.clock + 1 } : RunSt).hdo.log = st1.hdo.log
          from rfl, hc1]
    have hvE : validateHeirIds
        (recordStepFailure (failStep N) st1.clock (st1.clock - st.clock) e0
          { st1 with clock := st1.clock + 1 }).hdo.process_id
        (recordStepFailure (failStep N) st1.clock (st1.clock - st.clock) e0
          { st1 with clock := st1.clock + 1 }).hdo.meta = .ok () := by
      have hx := ext_invokeStep (failStep N)
        (recordStepStart (failStep N) st.clock { st with clock := st.clock + 1 })
      rw [hoi] at hx
      have hpid : st1.hdo.process_id = st.hdo.process_id := hx.2.1
      have hidem : st1.hdo.meta.idempotency_key = st.hdo.meta.idempotency_key :=
        hx.2.2.1
      have h1 : (recordStepFailure (failStep N) st1.clock (st1.clock - st.clock) e0
          { st1 with clock := st1.clock + 1 }).hdo.process_id =
          st1.hdo.process_id := rfl
      have h2 : (recordStepFailure (failStep N) st1.clock (st1.clock - st.clock) e0
          { st1 with clock := st1.clock + 1 }).hdo.meta.idempotency_key =
          st1.hdo.meta.idempotency_key := rfl
      rw [h1, hpid, validateHeirIds_congr st.hdo.process_id (h2.trans hidem)]
      exact hv
    by_cases hr : shouldRetryStep (failStep N) e0
        (recordStepFailure (failStep N) st1.clock (st1.clock - st.clock) e0
          { st1 with clock := st1.clock + 1 }).hdo = true
    · rw [if_pos hr]
      obtain ⟨hN0, hlt, _⟩ := (shouldRetryStep_iff _ _ _).mp hr
      have hlt2 : getStepRetryCount "s1"
          (recordStepFailure (failStep N) st1.clock (st1.clock - st.clock) e0
            { st1 with clock := st1.clock + 1 }).hdo.log < N := hlt
      obtain ⟨e2, st9, heq2, hcnt2⟩ := ih
        (sleepTicks
          (recordStepFailure (failStep N) st1.clock (st1.clock - st.clock) e0
            { st1 with clock := st1.clock + 1 })
          ((failStep N).retry_policy.backoff_seconds * 10))
        hvE (by
          have hs : getStepRetryCount "s1"
            (sleepTicks
              (recordStepFailure (failStep N) st1.clock (st1.clock - st.clock) e0
                { st1 with clock := st1.clock + 1 })
              ((failStep N).retry_policy.backoff_seconds * 10)).hdo.log =
            getStepRetryCount "s1"
              (recordStepFailure (failStep N) st1.clock (st1.clock - st.clock) e0
                { st1 with clock := st1.clock + 1 }).hdo.log := rfl
          omega)
      refine ⟨e2, st9, heq2, ?_⟩
      have hs : getStepRetryCount "s1"
          (sleepTicks
            (recordStepFailure (failStep N) st1.clock (st1.clock - st.clock) e0
              { st1 with clock := st1.clock + 1 })
            ((failStep N).retry_policy.backoff_seconds * 10)).hdo.log =
          getStepRetryCount "s1"
            (recordStepFailure (failStep N) st1.clock (st1.clock - st.clock) e0
              { st1 with clock := st1.clock + 1 }).hdo.log := rfl
      omega
    · rw [if_neg hr]
      have h3 : (failStep N).retry_policy.retry_on.contains "agent_failure" = true := rfl
      have hnr2 : ¬(N ≠ 0 ∧
          getStepRetryCount "s1"
            (recordStepFailure (failStep N) st1.clock (st1.clock - st.clock) e0
              { st1 with clock := st1.clock + 1 }).hdo.log < N) := by
        intro hand
        exact hr ((shouldRetryStep_iff _ _ _).mpr ⟨hand.1, hand.2, Or.inr h3⟩)
      have hN : N = 0 ∨
          getStepRetryCount "s1"
            (recordStepFailure (failStep N) st1.clock (st1.clock - st.clock) e0
              { st1 with clock := st1.clock + 1 }).hdo.log ≥ N := by
        by_cases hz : N = 0
        · exact Or.inl hz
        · right
          by_contra hlt
          exact hnr2 ⟨hz, by omega⟩
      exact ⟨e0, _, rfl, by rcases hN with hz | hge <;> omega⟩

/-- One-step always-failing plan: the run raises and the final log holds
exactly max N 1 failed entries for the step (N attempts when N is positive,
one attempt when max_retries is zero). -/
theorem runAltitudePlan_failPlan (N : Nat) :
    ∃ err st, runAltitudePlan (failPlan N) demoHdo = (.error err, st) ∧
      getStepRetryCount "s1" st.hdo.log = max N 1 := by
  have hvI : validateHeirIds
      (initializeHdoExecution (failPlan N) (initSt demoHdo)).hdo.process_id
      (initializeHdoExecution (failPlan N) (initSt demoHdo)).hdo.meta =
      .ok () := rfl
  have hc0 : getStepRetryCount "s1"
      (initializeHdoExecution (failPlan N) (initSt demoHdo)).hdo.log = 0 := rfl
  obtain ⟨e0, st1f, hex, hcnt⟩ := execStep_failStep N
    ((failStep N).retry_policy.max_retries + 1)
    (initializeHdoExecution (failPlan N) (initSt demoHdo)) hvI
    (by
      have hm : (failStep N).retry_policy.max_retries = N := rfl
      omega)
  rw [hc0] at hcnt
  rcases runAltitudePlan_split (failPlan N) demoHdo with
    ⟨st2, hr, heq⟩ | ⟨e, st2, hr, heq⟩
  · rw [show (failPlan N).steps = [failStep N] from rfl, runSteps, hex] at hr
    simp at hr
  · rw [show (failPlan N).steps = [failStep N] from rfl, runSteps, hex] at hr
    dsimp only at hr
    rw [Prod.mk.injEq] at hr
    obtain ⟨hA, hB⟩ := hr
    injection hA with hAe
    refine ⟨_, _, heq, ?_⟩
    have hfin : (recordHdoError (buildRecord st2.hdo {} e st2).1
        { (buildRecord st2.hdo {} e st2).2 with
          runnerRecords := (buildRecord st2.hdo {} e st2).2.runnerRecords ++
            [(buildRecord st2.hdo {} e st2).1] }).hdo.log = st2.hdo.log := by
      rw [recordHdoError_log]
      rfl
    rw [hfin, ← hB, hcnt]

/-! ## Invocations with a malformed process id -/

theorem orchestraInvoke_badPid (i a : String) (p : List (String × JVal))
    (sid : Option String) (alt : Option Int) (t : Nat) (st : RunSt)
    (hbad : procPat st.hdo.process_id = false) :
    ∃ e st1, orchestraInvoke i a p sid alt t st = (.error e, st1) := by
  unfold orchestraInvoke
  by_cases h1 : i = ""
  · rw [if_pos h1]; exact ⟨_, _, rfl⟩
  rw [if_neg h1]
  by_cases h2 : a = ""
  · rw [if_pos h2]; exact ⟨_, _, rfl⟩
  rw [if_neg h2]
  by_cases h3 : st.hdo.process_id = ""
  · rw [if_pos h3]; exact ⟨_, _, rfl⟩
  rw [if_neg h3]
  have hv : validateHeirIds st.hdo.process_id st.hdo.meta =
      .error ⟨"ValueError",
        "Invalid process_id format: " ++ st.hdo.process_id⟩ := by
    unfold validateHeirIds
    rw [hbad]
    simp
  rw [hv]
  exact ⟨_, _, rfl⟩

theorem invokeStep_badPid (s : Step) (st : RunSt)
    (hbad : procPat st.hdo.process_id = false) :
    ∃ e st1, invokeStep s st = (.error e, st1) := by
  obtain ⟨e, st1, hoi⟩ := orchestraInvoke_badPid s.agent_id s.action
    s.parameters (some s.step_id) (some s.altitude) s.timeout_seconds st hbad
  unfold invokeStep
  rw [hoi]
  exact ⟨e, st1, rfl⟩

/-- A step whose condition is the default always, run against a malformed
process id, raises on every attempt; it appends at least the started and
failed entries and keeps the process id. -/
theorem execStep_badPid (s : Step) (hcond : s.when.condition = "always") :
    ∀ (f : Nat) (st : RunSt), procPat st.hdo.process_id = false →
    ∃ e st1, execStep f s st = (.error e, st1) ∧
      st.hdo.log.length + 2 ≤ st1.hdo.log.length := by
  intro f
  induction f with
  | zero =>
    intro st hbad
    have hse : shouldExecuteStep s st.hdo = true := by
      unfold shouldExecuteStep
      dsimp only
      rw [hcond]
      simp
    rw [execStep.eq_def, if_pos hse]
    simp only [tickNow]
    obtain ⟨e0, st1, hoi⟩ := invokeStep_badPid s
      (recordStepStart s st.clock { st with clock := st.clock + 1 })
      (by
        have : (recordStepStart s st.clock
            { st with clock := st.clock + 1 }).hdo.process_id =
            st.hdo.process_id := rfl
        rw [this]
        exact hbad)
    rw [hoi]
    simp only [tickNow]
    have hlog1 : st1.hdo.log =
        (recordStepStart s st.clock { st with clock := st.clock + 1 }).hdo.log := by
      have h := invokeStep_log s
        (recordStepStart s st.clock { st with clock := st.clock + 1 })
      rw [hoi] at h
      exact h
    have hlen1 : st1.hdo.log.length = st.hdo.log.length + 1 := by
      rw [hlog1, recordStepStart_len]
    have hlenE : (recordStepFailure s st1.clock (st1.clock - st.clock) e0
        { st1 with clock := st1.clock + 1 }).hdo.log.length =
        st.hdo.log.length + 2 := by
      rw [recordStepFailure_len]
      have : ({ st1 with clock := st1.clock + 1 } : RunSt).hdo.log.length =
          st1.hdo.log.length := rfl
      omega
    split
    · exact ⟨e0, _, rfl, by omega⟩
    · exact ⟨e0, _, rfl, by omega⟩
  | succ n ih =>
    intro st hbad
    have hse : shouldExecuteStep s st.hdo = true := by
      unfold shouldExecuteStep
      dsimp only
      rw [hcond]
      simp
    rw [execStep.eq_def, if_pos hse]
    simp only [tickNow]
    obtain ⟨e0, st1, hoi⟩ := invokeStep_badPid s
      (recordStepStart s st.clock { st with clock := st.clock + 1 })
      (by
        have : (recordStepStart s st.clock
            { st with clock := st.clock + 1 }).hdo.process_id =
            st.hdo.process_id := rfl
        rw [this]
        exact hbad)
    rw [hoi]
    simp only [tickNow]
    have hlog1 : st1.hdo.log =
        (recordStepStart s st.clock { st with clock := st.clock + 1 }).hdo.log := by
      have h := invokeStep_log s
        (recordStepStart s st.clock { st with clock := st.clock + 1 })
      rw [hoi] at h
      exact h
    have hlen1 : st1.hdo.log.length = st.hdo.log.length + 1 := by
      rw [hlog1, recordStepStart_len]
    have hpid1 : st1.hdo.process_id = st.hdo.process_id := by
      have hx := ext_invokeStep s
        (recordStepStart s st.clock { st with clock := st.clock + 1 })
      rw [hoi] at hx
      exact hx.2.1
    have hlenE : (recordStepFailure s st1.clock (st1.clock - st.clock) e0
        { st1 with clock := st1.clock + 1 }).hdo.log.length =
        st.hdo.log.length + 2 := by
      rw [recordStepFailure_len]
      have : ({ st1 with clock := st1.clock + 1 } : RunSt).hdo.log.length =
          st1.hdo.log.length := rfl
      omega
    split
    · obtain ⟨e2, st9, heq2, hlen2⟩ := ih
        (sleepTicks
          (recordStepFailure s st1.clock (st1.clock - st.clock) e0
            { st1 with clock := st1.clock + 1 })
          (s.retry_policy.backoff_seconds * 10))
        (by
          have : (sleepTicks
              (recordStepFailure s st1.clock (st1.clock - st.clock) e0
                { st1 with clock := st1.clock + 1 })
              (s.retry_policy.backoff_seconds * 10)).hdo.process_id =
              st1.hdo.process_id := rfl
          rw [this, hpid1]
          exact hbad)
      refine ⟨e2, st9, heq2, ?_⟩
      have hs : (sleepTicks
          (recordStepFailure s st1.clock (st1.clock - st.clock) e0
            { st1 with clock := st1.clock + 1 })
          (s.retry_policy.backoff_seconds * 10)).hdo.log.length =
          (recordStepFailure s st1.clock (st1.clock - st.clock) e0
            { st1 with clock := st1.clock + 1 }).hdo.log.length := rfl
      omega
    · exact ⟨e0, _, rfl, by omega⟩

/-! ## Containment of identifiers in raised messages -/

theorem strContains_append_right (a b : String) :
    strContains (a ++ b) b = true := by
  unfold strContains
  rw [String.data_append]
  have h := containsSub_append_middle a.data b.data []
  simpa using h

theorem strContains_msg_mid (a p m i : String) :
    strContains (a ++ p ++ m ++ i) p = true := by
  unfold strContains
  simp only [String.data_append]
  rw [List.append_assoc (a.data ++ p.data) m.data i.data]
  exact containsSub_append_middle a.data p.data (m.data ++ i.data)

/-! ## Runner-level error records: exactly one per raising invocation -/

theorem runAltitudePlan_records (plan : Plan) (hdo : HDO) :
    ((runAltitudePlan plan hdo).1.isOk = true →
      (runAltitudePlan plan hdo).2.runnerRecords = []) ∧
    (∀ err st, runAltitudePlan plan hdo = (.error err, st) →
      ∃ r : ErrorRecord, st.runnerRecords = [r] ∧ err.errorId = r.error_id ∧
        err.planId = plan.plan_id ∧
        strContains err.message plan.plan_id = true ∧
        strContains err.message (toString r.error_id) = true ∧
        ∃ ec : ErrorContext, st.hdo.meta.error_context = some ec ∧
          ec.last_error_id = some r.error_id) := by
  rcases runAltitudePlan_split plan hdo with
    ⟨st2, hr, heq⟩ | ⟨e, st2, hr, heq⟩
  · have hrr : st2.runnerRecords = [] := by
      have h1 := ext_initializeHdoExecution plan (initSt hdo)
      have h2 := ext_runSteps plan.steps (initializeHdoExecution plan (initSt hdo))
      rw [hr] at h2
      exact (Ext_trans h1 h2).2.2.2.1
    constructor
    · intro hsucc
      rw [heq]
      have hc : (completeHdoExecution plan st2).runnerRecords =
          st2.runnerRecords := rfl
      rw [hc, hrr]
    · intro err st hes
      rw [heq] at hes
      rw [Prod.mk.injEq] at hes
      cases hes.1
  · have hrr : st2.runnerRecords = [] := by
      have h1 := ext_initializeHdoExecution plan (initSt hdo)
      have h2 := ext_runSteps plan.steps (initializeHdoExecution plan (initSt hdo))
      rw [hr] at h2
      exact (Ext_trans h1 h2).2.2.2.1
    constructor
    · intro hsucc
      rw [heq] at hsucc
      exact Bool.noConfusion hsucc
    · intro err st hes
      rw [heq] at hes
      rw [Prod.mk.injEq] at hes
      obtain ⟨herr, hst⟩ := hes
      injection herr with herr2
      refine ⟨(buildRecord st2.hdo {} e st2).1, ?_, ?_, ?_, ?_, ?_, ?_⟩
      · rw [← hst]
        have : (recordHdoError (buildRecord st2.hdo {} e st2).1
            { (buildRecord st2.hdo {} e st2).2 with
              runnerRecords := (buildRecord st2.hdo {} e st2).2.runnerRecords ++
                [(buildRecord st2.hdo {} e st2).1] }).runnerRecords =
            st2.runnerRecords ++ [(buildRecord st2.hdo {} e st2).1] := rfl
        rw [this, hrr]
        rfl
      · rw [← herr2]
      · rw [← herr2]
      · rw [← herr2]
        exact strContains_msg_mid "Orchestration plan " plan.plan_id
          " failed; error_id=" (toString (buildRecord st2.hdo {} e st2).1.error_id)
      · rw [← herr2]
        exact strContains_append_right
          ("Orchestration plan " ++ plan.plan_id ++ " failed; error_id=")
          (toString (buildRecord st2.hdo {} e st2).1.error_id)
      · rw [← hst]
        exact recordHdoError_ctx _ _

/-! ## Runs with an empty plan or a malformed process id -/

theorem runAltitudePlan_emptySteps (plan : Plan) (hdo : HDO)
    (hsteps : plan.steps = []) :
    ∃ h2 st, runAltitudePlan plan hdo = (.ok h2, st) := by
  rcases runAltitudePlan_split plan hdo with
    ⟨st2, hr, heq⟩ | ⟨e, st2, hr, heq⟩
  · exact ⟨_, _, heq⟩
  · rw [hsteps, runSteps] at hr
    rw [Prod.mk.injEq] at hr
    cases hr.1

theorem runAltitudePlan_badPid (plan : Plan) (hdo : HDO) (s : Step)
    (rest : List Step) (hsteps : plan.steps = s :: rest)
    (hcond : s.when.condition = "always")
    (hbad : procPat hdo.process_id = false) :
    ∃ err st, runAltitudePlan plan hdo = (.error err, st) ∧
      hdo.log.length + 3 ≤ st.hdo.log.length ∧
      st.runnerRecords.length = 1 := by
  have hpidI : (initializeHdoExecution plan (initSt hdo)).hdo.process_id =
      hdo.process_id := (ext_initializeHdoExecution plan (initSt hdo)).2.1
  obtain ⟨e0, st1f, hex, hlen⟩ := execStep_badPid s hcond
    (s.retry_policy.max_retries + 1) (initializeHdoExecution plan (initSt hdo))
    (by rw [hpidI]; exact hbad)
  rcases runAltitudePlan_split plan hdo with
    ⟨st2, hr, heq⟩ | ⟨e, st2, hr, heq⟩
  · rw [hsteps, runSteps, hex] at hr
    simp at hr
  · have hrr : st2.runnerRecords = [] := by
      have h1 := ext_initializeHdoExecution plan (initSt hdo)
      have h2 := ext_runSteps plan.steps (initializeHdoExecution plan (initSt hdo))
      rw [hr] at h2
      exact (Ext_trans h1 h2).2.2.2.1
    rw [hsteps, runSteps, hex] at hr
    dsimp only at hr
    rw [Prod.mk.injEq] at hr
    obtain ⟨hA, hB⟩ := hr
    refine ⟨_, _, heq, ?_, ?_⟩
    · have hfin : (recordHdoError (buildRecord st2.hdo {} e st2).1
          { (buildRecord st2.hdo {} e st2).2 with
            runnerRecords := (buildRecord st2.hdo {} e st2).2.runnerRecords ++
              [(buildRecord st2.hdo {} e st2).1] }).hdo.log = st2.hdo.log := by
        rw [recordHdoError_log]
        rfl
      have hI := initializeHdoExecution_len plan (initSt hdo)
      have hI0 : (initSt hdo).hdo.log.length = hdo.log.length := rfl
      rw [hfin, ← hB]
      omega
    · have : (recordHdoError (buildRecord st2.hdo {} e st2).1
          { (buildRecord st2.hdo {} e st2).2 with
            runnerRecords := (buildRecord st2.hdo {} e st2).2.runnerRecords ++
              [(buildRecord st2.hdo {} e st2).1] }).runnerRecords =
          st2.runnerRecords ++ [(buildRecord st2.hdo {} e st2).1] := rfl
      rw [this, hrr]
      rfl

/-! ## The fuel argument is semantically irrelevant

The retry guard recomputes the failed-entry count from the log, and every
attempt appends one failed entry before the guard runs, so any fuel of at
least max_retries minus the current count behaves identically; the
exhaustion branch is unreachable for the fuel runSteps supplies. -/

theorem execStep_fuel_irrelevant (s : Step) : ∀ (f : Nat) (st : RunSt),
    s.retry_policy.max_retries ≤ f + getStepRetryCount s.step_id st.hdo.log →
    execStep (f + 1) s st = execStep f s st := by
  intro f
  induction f with
  | zero =>
    intro st hcnt
    rw [execStep.eq_def, execStep.eq_def]
    by_cases hx : shouldExecuteStep s st.hdo = true
    · rw [if_pos hx, if_pos hx]
      simp only [tickNow]
      rcases hinv : invokeStep s
          (recordStepStart s st.clock { st with clock := st.clock + 1 }) with ⟨res, stC⟩
      cases res with
      | ok r => rfl
      | error e =>
        simp only [tickNow]
        by_cases hr : shouldRetryStep s e
            (recordStepFailure s stC.clock (stC.clock - st.clock) e
              { stC with clock := stC.clock + 1 }).hdo = true
        · obtain ⟨hN0, hlt, _⟩ := (shouldRetryStep_iff _ _ _).mp hr
          have hlogC : stC.hdo.log =
              (recordStepStart s st.clock { st with clock := st.clock + 1 }).hdo.log := by
            have h := invokeStep_log s
              (recordStepStart s st.clock { st with clock := st.clock + 1 })
            rw [hinv] at h
            exact h
          have hcC : getStepRetryCount s.step_id stC.hdo.log =
              getStepRetryCount s.step_id st.hdo.log := by
            rw [hlogC]
            exact getStepRetryCount_start s.step_id s st.clock
              { st with clock := st.clock + 1 }
          have hf := getStepRetryCount_failure s stC.clock (stC.clock - st.clock) e
            { stC with clock := stC.clock + 1 }
          have hcc : getStepRetryCount s.step_id
              ({ stC with clock := stC.clock + 1 } : RunSt).hdo.log =
              getStepRetryCount s.step_id stC.hdo.log := rfl
          omega
        · rw [if_neg hr, if_neg hr]
    · rw [if_neg hx, if_neg hx]
  | succ n ih =>
    intro st hcnt
    rw [execStep.eq_def, execStep.eq_def]
    by_cases hx : shouldExecuteStep s st.hdo = true
    · rw [if_pos hx, if_pos hx]
      simp only [tickNow]
      rcases hinv : invokeStep s
          (recordStepStart s st.clock { st with clock := st.clock + 1 }) with ⟨res, stC⟩
      cases res with
      | ok r => rfl
      | error e =>
        simp only [tickNow]
        by_cases hr : shouldRetryStep s e
            (recordStepFailure s stC.clock (stC.clock - st.clock) e
              { stC with clock := stC.clock + 1 }).hdo = true
        · rw [if_pos hr, if_pos hr]
          have hlogC : stC.hdo.log =
              (recordStepStart s st.clock { st with clock := st.clock + 1 }).hdo.log := by
            have h := invokeStep_log s
              (recordStepStart s st.clock { st with clock := st.clock + 1 })
            rw [hinv] at h
            exact h
          have hcC : getStepRetryCount s.step_id stC.hdo.log =
              getStepRetryCount s.step_id st.hdo.log := by
            rw [hlogC]
            exact getStepRetryCount_start s.step_id s st.clock
              { st with clock := st.clock + 1 }
          have hf := getStepRetryCount_failure s stC.clock (stC.clock - st.clock) e
            { stC with clock := stC.clock + 1 }
          have hcc : getStepRetryCount s.step_id
              ({ stC with clock := stC.clock + 1 } : RunSt).hdo.log =
              getStepRetryCount s.step_id stC.hdo.log := rfl
          have hs : getStepRetryCount s.step_id
              (sleepTicks
                (recordStepFailure s stC.clock (stC.clock - st.clock) e
                  { stC with clock := stC.clock + 1 })
                (s.retry_policy.backoff_seconds * 10)).hdo.log =
              getStepRetryCount s.step_id
                (recordStepFailure s stC.clock (stC.clock - st.clock) e
                  { stC with clock := stC.clock + 1 }).hdo.log := rfl
          exact ih _ (by omega)
        · rw [if_neg hr, if_neg hr]
    · rw [if_neg hx, if_neg hx]

/-! ## Skip behavior of conditional promotion steps over runner-only logs -/

theorem execStep_promoSkip (f : Nat) (s : Step) (st : RunSt)
    (hc : CleanLog st.hdo.log) (hcond : s.when.condition = "conditional")
    (hfrag : strContains s.when.expression promotionExprFragment = true) :
    execStep f s st = (.ok (), recordStepSkipped s st) := by
  have hse : shouldExecuteStep s st.hdo = false := by
    unfold shouldExecuteStep
    dsimp only
    rw [hcond]
    simp only [reduceIte, String.reduceEq]
    unfold evaluateConditionExpression
    have hne1 : s.when.expression ≠ "true" := by
      intro h
      rw [h] at hfrag
      exact absurd hfrag (by decide)
    have hne2 : s.when.expression ≠ "false" := by
      intro h
      rw [h] at hfrag
      exact absurd hfrag (by decide)
    rw [if_neg hne1, if_neg hne2, if_pos hfrag]
    exact checkPromotionDecision_eq_false hc
  rw [execStep.eq_def, if_neg (by simp [hse])]

/-! ## Timeout budget is threaded but never enforced -/

theorem orchestraInvoke_timeout_irrelevant (i a : String)
    (p : List (String × JVal)) (sid : Option String) (alt : Option Int)
    (t1 t2 : Nat) (st : RunSt) :
    orchestraInvoke i a p sid alt t1 st = orchestraInvoke i a p sid alt t2 st := by
  unfold orchestraInvoke
  rw [show delegateToAgent i a p t1 st = delegateToAgent i a p t2 st from rfl]

/-! ## Dispatch written from the specification text (case-insensitive) -/

/-- Selection by case-insensitive substring match in the chain order, as the
specification describes it: both the agent id and the keyword are compared
lower-cased (the keywords are already lower-case). -/
def delegateCategoryCI (agentId : String) : Category :=
  let a := lowerStr agentId
  if strContains a "orchestrator" then .orchestrator
  else if strContains a "mapper" then .mapper
  else if strContains a "validator" then .validator
  else if strContains a "db" then .db
  else if strContains a "enforcer" then .enforcer
  else if strContains a "notifier" then .notifier
  else if strContains a "reporter" then .reporter
  else .generic

/-- Every invocation appends at least the start_orchestration entry, so the
final log is strictly longer than the callers. -/
theorem run_len (plan : Plan) (hdo : HDO) :
    hdo.log.length + 1 ≤ (runAltitudePlan plan hdo).2.hdo.log.length := by
  have hI := initializeHdoExecution_len plan (initSt hdo)
  have hI0 : (initSt hdo).hdo.log.length = hdo.log.length := rfl
  rcases runAltitudePlan_split plan hdo with
    ⟨st2, hr, heq⟩ | ⟨e, st2, hr, heq⟩
  · have hsteps : logLe (initializeHdoExecution plan (initSt hdo)).hdo.log
        st2.hdo.log := by
      have h := ext_runSteps plan.steps (initializeHdoExecution plan (initSt hdo))
      rw [hr] at h
      exact h.1
    have h2 := logLe_length hsteps
    have hc := (completeHdoExecution_spec plan st2).1
    rw [heq]
    dsimp only
    have : (completeHdoExecution plan st2).hdo.log.length =
        st2.hdo.log.length + 1 := by
      rw [hc]
      simp
    omega
  · have hsteps : logLe (initializeHdoExecution plan (initSt hdo)).hdo.log
        st2.hdo.log := by
      have h := ext_runSteps plan.steps (initializeHdoExecution plan (initSt hdo))
      rw [hr] at h
      exact h.1
    have h2 := logLe_length hsteps
    rw [heq]
    have hfin : (recordHdoError (buildRecord st2.hdo {} e st2).1
        { (buildRecord st2.hdo {} e st2).2 with
          runnerRecords := (buildRecord st2.hdo {} e st2).2.runnerRecords ++
            [(buildRecord st2.hdo {} e st2).1] }).hdo.log = st2.hdo.log := by
      rw [recordHdoError_log]
      rfl
    dsimp only
    rw [hfin]
    omega

/-- Step guarded by the hardcoded promotion expression. -/
def condStep : Step :=
  { step_id := "c1", agent_id := "gate", action := "check", altitude := 10000,
    when := { condition := "conditional", depends_on := [],
              expression := promotionExprFragment } }

/-- Step with a timeout-matching retry policy. -/
def tRetryStep : Step :=
  { step_id := "s1", agent_id := "flaky", action := "run", altitude := 10000,
    retry_policy := { max_retries := 1, retry_on := ["timeout"],
                      backoff_seconds := 0 } }

/-! # Claim theorems -/

/-- C1 counterexample: the claim says that for every plan — including a plan
with an empty steps list — a malformed process_id makes run_altitude_plan
raise InvalidIdentifier before any step executes, with zero log entries
appended and no ErrorRecord.  On the code, identifier validation lives
inside orchestra_invoke, which only runs per step: with the empty plan and
process_id BAD the run returns successfully, appends two log entries
(start_orchestration and complete_orchestration) and builds no record. -/
theorem c1_identifier_validation_counterexample :
    procPat badHdo.process_id = false ∧
    (runAltitudePlan emptyPlan badHdo).1.isOk = true ∧
    (runAltitudePlan emptyPlan badHdo).2.hdo.log.length = 2 ∧
    (runAltitudePlan emptyPlan badHdo).2.records.length = 0 := by
  decide

/-- C1 (amended): identifier validation runs inside each step invocation,
not once before the loop.  A plan with no steps completes normally with no
validation at all; a plan whose first step has the default always condition
raises against a malformed process_id, after appending at least three log
entries (start_orchestration plus a started and a failed entry) and
producing one runner-level ErrorRecord. -/
theorem c1_identifier_validation_amended :
    (∀ (plan : Plan) (hdo : HDO), plan.steps = [] →
       ∃ h2 st, runAltitudePlan plan hdo = (.ok h2, st)) ∧
    (∀ (plan : Plan) (hdo : HDO) (s : Step) (rest : List Step),
       plan.steps = s :: rest → s.when.condition = "always" →
       procPat hdo.process_id = false →
       ∃ err st, runAltitudePlan plan hdo = (.error err, st) ∧
         hdo.log.length + 3 ≤ st.hdo.log.length ∧
         st.runnerRecords.length = 1) :=
  ⟨runAltitudePlan_emptySteps, runAltitudePlan_badPid⟩

/-- C1 witness: both amended parts at concrete inputs. -/
theorem c1_identifier_validation_witness :
    (∃ h2 st, runAltitudePlan emptyPlan demoHdo = (.ok h2, st)) ∧
    (∃ err st, runAltitudePlan (failPlan 0) badHdo = (.error err, st) ∧
       badHdo.log.length + 3 ≤ st.hdo.log.length ∧
       st.runnerRecords.length = 1) :=
  ⟨c1_identifier_validation_amended.1 emptyPlan demoHdo rfl,
   c1_identifier_validation_amended.2 (failPlan 0) badHdo (failStep 0) [] rfl
     rfl (by decide)⟩

/-- C2 counterexample: for max_retries = 1 and an always-failing delegate
matched by retry_on, the claim demands exactly 2 failed entries; the code
counts the just-recorded failure when it checks the retry budget, so the
run raises after a single attempt and the log holds exactly 1 failed entry
for the step. -/
theorem c2_retry_bound_counterexample :
    (runAltitudePlan (failPlan 1) demoHdo).1.isOk = false ∧
    getStepRetryCount "s1" (runAltitudePlan (failPlan 1) demoHdo).2.hdo.log = 1 ∧
    ¬ getStepRetryCount "s1" (runAltitudePlan (failPlan 1) demoHdo).2.hdo.log =
        1 + 1 := by
  decide

/-- C2 (amended): with max_retries = N and an always-failing delegate
matching retry_on, the log contains exactly max N 1 failed entries for the
step when the Runner raises (N attempts when N is positive, one attempt
when N is zero); and a retry happens only while the count of failed
entries for the step — a count that already includes the failure of the
current attempt — is below max_retries. -/
theorem c2_retry_bound_amended :
    (∀ N : Nat, ∃ err st, runAltitudePlan (failPlan N) demoHdo = (.error err, st) ∧
       getStepRetryCount "s1" st.hdo.log = max N 1) ∧
    (∀ (s : Step) (e : PyErr) (h : HDO),
       shouldRetryStep s e h = true ↔
         (s.retry_policy.max_retries ≠ 0 ∧
          getStepRetryCount s.step_id h.log < s.retry_policy.max_retries ∧
          ((strContains (lowerStr e.msg) "timeout" = true ∧
            s.retry_policy.retry_on.contains "timeout" = true) ∨
           s.retry_policy.retry_on.contains "agent_failure" = true))) :=
  ⟨runAltitudePlan_failPlan, shouldRetryStep_iff⟩

/-- C2 witness: the count formula at N = 3 (three failed entries). -/
theorem c2_retry_bound_witness :
    ∃ err st, runAltitudePlan (failPlan 3) demoHdo = (.error err, st) ∧
      getStepRetryCount "s1" st.hdo.log = 3 := by
  simpa using c2_retry_bound_amended.1 3

/-- C3 counterexample: one failing step with no retries produces two
error-record-builder calls in a single invocation — one inside
orchestra_invoke for the failed delegate attempt and one in the runner
error path — refuting at most one ErrorRecord per invocation counting
every call to the builder. -/
theorem c3_error_record_counterexample :
    (runAltitudePlan (failPlan 0) demoHdo).1.isOk = false ∧
    (runAltitudePlan (failPlan 0) demoHdo).2.records.length = 2 := by
  decide

/-- C3 (amended): the runner-level error path builds exactly one
ErrorRecord if and only if the invocation raises; the raised error carries
the plan id and that records error id in its message, and
meta.error_context.last_error_id equals that id.  Counting every builder
call, the delegate layer adds one record per failed delegate attempt, so a
raising invocation can hold more than one record in total. -/
theorem c3_error_record_amended :
    ∀ (plan : Plan) (hdo : HDO),
      ((runAltitudePlan plan hdo).1.isOk = true →
        (runAltitudePlan plan hdo).2.runnerRecords = []) ∧
      (∀ err st, runAltitudePlan plan hdo = (.error err, st) →
        ∃ r : ErrorRecord, st.runnerRecords = [r] ∧ err.errorId = r.error_id ∧
          err.planId = plan.plan_id ∧
          strContains err.message plan.plan_id = true ∧
          strContains err.message (toString r.error_id) = true ∧
          ∃ ec : ErrorContext, st.hdo.meta.error_context = some ec ∧
            ec.last_error_id = some r.error_id) :=
  fun plan hdo => runAltitudePlan_records plan hdo

/-- C3 witness: the raising side at the concrete failing plan. -/
theorem c3_error_record_witness :
    ∃ r : ErrorRecord,
      (runAltitudePlan (failPlan 0) demoHdo).2.runnerRecords = [r] ∧
      strContains
        (match (runAltitudePlan (failPlan 0) demoHdo).1 with
         | .error err => err.message
         | .ok _ => "") (failPlan 0).plan_id = true := by
  rcases hE : (runAltitudePlan (failPlan 0) demoHdo).1 with err | h2
  · have hpair : runAltitudePlan (failPlan 0) demoHdo =
        (.error err, (runAltitudePlan (failPlan 0) demoHdo).2) := by
      rw [← hE]
    obtain ⟨r, h1, _, _, h4, _, _⟩ :=
      (c3_error_record_amended (failPlan 0) demoHdo).2 err
        (runAltitudePlan (failPlan 0) demoHdo).2 hpair
    exact ⟨r, h1, h4⟩
  · have : (runAltitudePlan (failPlan 0) demoHdo).1.isOk = false := by decide
    rw [hE] at this
    cases this

/-- C4 counterexample: Python dict.copy is shallow, so when the caller
supplied a log key the runner appends into the very list object the caller
holds; after running even the empty plan, the callers log has gained two
entries, refuting the claim that the callers nested log list is unchanged. -/
theorem c4_frame_counterexample :
    (callerLogAfter emptyPlan demoHdo true).length = 2 ∧
    demoHdo.log.length = 0 ∧
    callerLogAfter emptyPlan demoHdo true ≠ demoHdo.log := by
  refine ⟨by decide, by decide, ?_⟩
  intro h
  have h2 : (callerLogAfter emptyPlan demoHdo true).length = 2 := by decide
  have h0 : demoHdo.log.length = 0 := by decide
  rw [h] at h2
  omega

/-- C4 (amended): the callers top-level dictionary is protected by the
shallow copy (absent log key means a fresh list the caller never sees), but
a caller-supplied log list is shared with the runner copy: after the call
the caller observes exactly the runners final log, which extends the
original log by at least one entry. -/
theorem c4_frame_amended :
    ∀ (plan : Plan) (hdo : HDO),
      callerLogAfter plan hdo false = hdo.log ∧
      callerLogAfter plan hdo true = (runAltitudePlan plan hdo).2.hdo.log ∧
      logLe hdo.log (callerLogAfter plan hdo true) ∧
      hdo.log.length + 1 ≤ (callerLogAfter plan hdo true).length := by
  intro plan hdo
  refine ⟨rfl, rfl, ?_, ?_⟩
  · have h := (run_st_facts plan hdo).2.2.1
    rw [show callerLogAfter plan hdo true =
        (runAltitudePlan plan hdo).2.hdo.log from rfl]
    exact h
  · have h := run_len plan hdo
    rw [show callerLogAfter plan hdo true =
        (runAltitudePlan plan hdo).2.hdo.log from rfl]
    exact h

/-- C5: every successful run ends with a complete_orchestration entry as
the last log entry and returns the HDO with stage output and validated
true; and the two-step mapper/validator scenario returns stage output,
validated true and exactly the six expected log entries in order. -/
theorem c5_success_completion :
    (∀ (plan : Plan) (hdo : HDO) (h2 : HDO),
       (runAltitudePlan plan hdo).1 = .ok h2 →
       h2.stage = "output" ∧ h2.validated = true ∧
       ∃ e : LogEntry, h2.log.getLast? = some e ∧
         e.agent_id = "orchestra-runner" ∧
         e.action = "complete_orchestration" ∧ e.status = Status.completed) ∧
    ((runAltitudePlan demoPlan demoHdo).1.isOk = true ∧
     (runAltitudePlan demoPlan demoHdo).2.hdo.stage = "output" ∧
     (runAltitudePlan demoPlan demoHdo).2.hdo.validated = true ∧
     (runAltitudePlan demoPlan demoHdo).2.hdo.log.map entrySig =
       [("orchestra-runner", "start_orchestration", Status.started),
        ("input-mapper", "map", Status.started),
        ("input-mapper", "map", Status.completed),
        ("input-validator", "validate", Status.started),
        ("input-validator", "validate", Status.completed),
        ("orchestra-runner", "complete_orchestration", Status.completed)]) := by
  constructor
  · intro plan hdo h2 hok
    rcases runAltitudePlan_split plan hdo with
      ⟨st2, hr, heq⟩ | ⟨e, st2, hr, heq⟩
    · rw [heq] at hok
      injection hok with hh
      obtain ⟨hlog, hstage, hval⟩ := completeHdoExecution_spec plan st2
      refine ⟨by rw [← hh]; exact hstage, by rw [← hh]; exact hval, ?_⟩
      refine ⟨{ timestamp := st2.clock, agent_id := "orchestra-runner",
                action := "complete_orchestration", status := Status.completed,
                details := { plan_id := some plan.plan_id,
                             total_steps_executed :=
                               some (st2.hdo.log.filter
                                 detailStepIdTruthy).length } },
              ?_, rfl, rfl, rfl⟩
      rw [← hh, hlog]
      exact List.getLast?_concat _
    · rw [heq] at hok
      cases hok
  · exact ⟨by decide, by decide, by decide, by decide⟩

/-- C5 witness: the general success part applied to the scenario run. -/
theorem c5_success_completion_witness :
    (runAltitudePlan demoPlan demoHdo).2.hdo.stage = "output" ∧
    (runAltitudePlan demoPlan demoHdo).2.hdo.validated = true :=
  have h := c5_success_completion.1 demoPlan demoHdo
    (runAltitudePlan demoPlan demoHdo).2.hdo rfl
  ⟨h.1, h.2.1⟩

/-- C6 counterexample: dispatch is case-sensitive Python substring
matching; Input-Mapper falls through to the generic behavior while
input-mapper selects the mapper behavior, refuting case-insensitive
selection. -/
theorem c6_dispatch_counterexample :
    delegateCategory "Input-Mapper" = Category.generic ∧
    delegateCategory "input-mapper" = Category.mapper ∧
    Category.generic ≠ Category.mapper := by
  decide

/-- C6 (amended): behavior is selected by case-sensitive substring
matching; on agent ids that are already lower-case the selection agrees
with the case-insensitive description of the specification. -/
theorem c6_dispatch_amended :
    ∀ agentId : String, lowerStr agentId = agentId →
      delegateCategory agentId = delegateCategoryCI agentId := by
  intro id h
  unfold delegateCategory delegateCategoryCI
  rw [h]

/-- C6 witness: the amended agreement at a lower-case agent id. -/
theorem c6_dispatch_witness :
    delegateCategory "input-mapper" = delegateCategoryCI "input-mapper" :=
  c6_dispatch_amended "input-mapper" (by decide)

/-- C7: the severity classifier is first-match-wins over the lower-cased
message (critical keywords, then high keywords), then over the exception
type (ValueError/KeyError/AttributeError medium, Warning/UserWarning low),
defaulting to high; in particular low is only ever produced for the two
warning types. -/
theorem c7_severity_policy :
    ∀ (ty msg : String),
      (critKeywords.any (fun k => strContains (lowerStr msg) k) = true →
        determineErrorSeverity ty msg = "critical") ∧
      (critKeywords.any (fun k => strContains (lowerStr msg) k) = false →
       highKeywords.any (fun k => strContains (lowerStr msg) k) = true →
        determineErrorSeverity ty msg = "high") ∧
      (critKeywords.any (fun k => strContains (lowerStr msg) k) = false →
       highKeywords.any (fun k => strContains (lowerStr msg) k) = false →
       ["ValueError", "KeyError", "AttributeError"].contains ty = true →
        determineErrorSeverity ty msg = "medium") ∧
      (critKeywords.any (fun k => strContains (lowerStr msg) k) = false →
       highKeywords.any (fun k => strContains (lowerStr msg) k) = false →
       ["ValueError", "KeyError", "AttributeError"].contains ty = false →
       ["Warning", "UserWarning"].contains ty = true →
        determineErrorSeverity ty msg = "low") ∧
      (critKeywords.any (fun k => strContains (lowerStr msg) k) = false →
       highKeywords.any (fun k => strContains (lowerStr msg) k) = false →
       ["ValueError", "KeyError", "AttributeError"].contains ty = false →
       ["Warning", "UserWarning"].contains ty = false →
        determineErrorSeverity ty msg = "high") ∧
      (determineErrorSeverity ty msg = "low" →
        ["Warning", "UserWarning"].contains ty = true) := by
  intro ty msg
  unfold determineErrorSeverity
  dsimp only
  refine ⟨?_, ?_, ?_, ?_, ?_, ?_⟩
  · intro h1
    rw [if_pos h1]
  · intro h1 h2
    rw [if_neg (by simp only [h1]; decide), if_pos h2]
  · intro h1 h2 h3
    rw [if_neg (by simp only [h1]; decide), if_neg (by simp only [h2]; decide),
        if_pos h3]
  · intro h1 h2 h3 h4
    rw [if_neg (by simp only [h1]; decide), if_neg (by simp only [h2]; decide),
        if_neg (by simp only [h3]; decide), if_pos h4]
  · intro h1 h2 h3 h4
    rw [if_neg (by simp only [h1]; decide), if_neg (by simp only [h2]; decide),
        if_neg (by simp only [h3]; decide), if_neg (by simp only [h4]; decide)]
  · intro hl
    split_ifs at hl with a b c d
    · exact absurd hl (by decide)
    · exact absurd hl (by decide)
    · exact absurd hl (by decide)
    · exact d
    · exact absurd hl (by decide)

/-- C7 witness: an unmatched exception defaults to high, never low. -/
theorem c7_severity_policy_witness :
    determineErrorSeverity "TypeError" "unexpected widget" = "high" :=
  (c7_severity_policy "TypeError" "unexpected widget").2.2.2.2.1
    (by decide) (by decide) (by decide) (by decide)

/-- C8: the trace of HDO snapshots of one invocation is pairwise ordered
by log extension (every earlier reachable log is a prefix of every later
one, so no appended entry is ever changed or removed), the trace starts at
the callers HDO, the callers log extends into the final log, and every
successful run returns a log at least as long as the plans step list. -/
theorem c8_log_append_only :
    ∀ (plan : Plan) (hdo : HDO),
      List.Pairwise (fun a b => logLe a.log b.log)
        (runAltitudePlan plan hdo).2.trace ∧
      (runAltitudePlan plan hdo).2.trace.head? = some hdo ∧
      logLe hdo.log (runAltitudePlan plan hdo).2.hdo.log ∧
      (∀ h2 : HDO, (runAltitudePlan plan hdo).1 = .ok h2 →
        plan.steps.length ≤ h2.log.length) := by
  intro plan hdo
  obtain ⟨hwf, ⟨t, ht⟩, hle, _⟩ := run_st_facts plan hdo
  refine ⟨pairwise_of_chain' hwf.2.2, by rw [ht]; rfl, hle, ?_⟩
  intro h2 hok
  rcases runAltitudePlan_split plan hdo with
    ⟨st2, hr, heq⟩ | ⟨e, st2, hr, heq⟩
  · rw [heq] at hok
    injection hok with hh
    have hlen2 := runSteps_ok_len plan.steps _ st2 hr
    have hI := initializeHdoExecution_len plan (initSt hdo)
    have hI0 : (initSt hdo).hdo.log.length = hdo.log.length := rfl
    have hc := (completeHdoExecution_spec plan st2).1
    have hfin : h2.log.length = st2.hdo.log.length + 1 := by
      rw [← hh, hc]
      simp
    omega
  · rw [heq] at hok
    cases hok

/-- C8 witness: the success length bound at the scenario run. -/
theorem c8_log_append_only_witness :
    demoPlan.steps.length ≤ (runAltitudePlan demoPlan demoHdo).2.hdo.log.length :=
  (c8_log_append_only demoPlan demoHdo).2.2.2
    (runAltitudePlan demoPlan demoHdo).2.hdo rfl

/-- C9 counterexample: a mapper step with timeout_seconds = 0 is not cut
off: the run succeeds and the step completes with a modeled delegate
latency of 5 tenths of a second (duration 6 ticks), although the bound is
zero — the code threads timeout_seconds to the delegate layer and never
enforces it. -/
theorem c9_timeout_counterexample :
    tStep.timeout_seconds = 0 ∧
    delegateSleepTenths (delegateCategory tStep.agent_id) = 5 ∧
    (runAltitudePlan tPlan demoHdo).1.isOk = true ∧
    (runAltitudePlan tPlan demoHdo).2.hdo.log.map
      (fun e => (e.details.step_id, e.status, e.duration_ms)) =
      [(none, Status.started, none), (some "s1", Status.started, none),
       (some "s1", Status.completed, some 6),
       (none, Status.completed, none)] := by
  decide

/-- C9 (amended): the delegate invocation result is entirely independent
of the timeout_seconds argument (no attempt is ever cut off); a failure
whose lower-cased message names timeout is classified as a timeout for
retry evaluation exactly like any other matched failure. -/
theorem c9_timeout_amended :
    (∀ (i a : String) (p : List (String × JVal)) (sid : Option String)
       (alt : Option Int) (t1 t2 : Nat) (st : RunSt),
       orchestraInvoke i a p sid alt t1 st =
         orchestraInvoke i a p sid alt t2 st) ∧
    (∀ (s : Step) (e : PyErr) (h : HDO),
       s.retry_policy.retry_on.contains "timeout" = true →
       strContains (lowerStr e.msg) "timeout" = true →
       s.retry_policy.max_retries ≠ 0 →
       getStepRetryCount s.step_id h.log < s.retry_policy.max_retries →
       shouldRetryStep s e h = true) := by
  constructor
  · exact orchestraInvoke_timeout_irrelevant
  · intro s e h h1 h2 h3 h4
    exact (shouldRetryStep_iff s e h).mpr ⟨h3, h4, Or.inl ⟨h2, h1⟩⟩

/-- C9 witness: timeout classification at a concrete timeout-matching
failure. -/
theorem c9_timeout_witness :
    shouldRetryStep tRetryStep ⟨"Exception", "timeout after 30s"⟩ demoHdo =
      true :=
  c9_timeout_amended.2 tRetryStep ⟨"Exception", "timeout after 30s"⟩ demoHdo
    (by decide) (by decide) (by decide) (by decide)

/-- C10: completed entries of the step executor carry only step_id,
altitude and result_summary in their details and never a
promotion_decision key; over any run started from a log without that key,
every reachable state evaluates the hardcoded promotion expression to
false; and a step whose condition is conditional with that expression is
recorded skipped instead of executing. -/
theorem c10_promotion_invariant :
    (∀ (s : Step) (endT dur : Nat) (r : DelegateResult) (st : RunSt),
       (recordStepCompletion s endT dur r st).hdo.log = st.hdo.log ++
         [{ timestamp := endT, agent_id := s.agent_id, action := s.action,
            status := Status.completed, duration_ms := some dur,
            error_id := none,
            details := { step_id := some s.step_id,
                         altitude := some s.altitude,
                         result_summary := some r.summary } }]) ∧
    (∀ (plan : Plan) (hdo : HDO), CleanLog hdo.log →
       ∀ h ∈ (runAltitudePlan plan hdo).2.trace,
         checkPromotionDecision h.log = false) ∧
    (∀ (f : Nat) (s : Step) (st : RunSt), CleanLog st.hdo.log →
       s.when.condition = "conditional" →
       strContains s.when.expression promotionExprFragment = true →
       execStep f s st = (.ok (), recordStepSkipped s st)) := by
  refine ⟨?_, ?_, execStep_promoSkip⟩
  · intro s endT dur r st
    simp [recordStepCompletion, setHdo]
  · intro plan hdo hc h hm
    have hclean := (run_st_facts plan hdo).2.2.2 hc
    exact checkPromotionDecision_eq_false (hclean.2 h hm)

/-- C10 witness: the conditional promotion step is skipped over the fresh
scenario state. -/
theorem c10_promotion_invariant_witness :
    execStep 1 condStep (initSt demoHdo) =
      (.ok (), recordStepSkipped condStep (initSt demoHdo)) :=
  c10_promotion_invariant.2.2 1 condStep (initSt demoHdo)
    (by intro e he; simp [initSt, demoHdo] at he) rfl (by decide)

end Orchestra
